import Mathlib

/-!
# The buffered stream of the reactor (`src/reactor_core/reactor_stream.c`)

A shallow embedding of `reactor_stream.c`.  One `World` value holds the
fields of the `reactor_stream` record, the thread-local `current` marker,
`errno`, and the collaborators the stream talks to (descriptor, byte buffer
allocator, user callback).  The collaborators are not part of the file under
study; they are modelled at their interface:

* every answer of the descriptor and of the allocator is taken from a script
  stored in the world, one entry per call; a call on an exhausted script has
  no result (`none`), so a loop that never stops has no result either;
* every call made to the descriptor is appended to `calls`, every event
  dispatched to the user callback is appended to `events`;
* the user callback is a parameter of the operations.

Byte counts are natural numbers.  A buffer of the machine holds fewer than
`2 ^ 64` bytes and the descriptor never accepts more than it is offered, so
the additions of the write loop do not wrap.  The one place where the machine
representation of a count decides control flow, the comparison of a `size_t`
with `-1` after its conversion to `ssize_t` in `reactor_stream_flush`, is
modelled with the explicit conversions `to_ssize` and `to_size`.
-/

namespace ReactorStream

/-! ## Data model -/

abbrev Byte := Nat

/-- The field `state` of a stream: `REACTOR_STREAM_CLOSED`, `_OPEN`, `_LINGER`, `_INVALID`. -/
inductive State
  | CLOSED
  | OPEN
  | LINGER
  | INVALID
  deriving DecidableEq

/-- Stream-level events given to the user callback; `READ` carries the view
`{base, size}` of the bytes just read. -/
inductive Event
  | ERROR
  | READ (data : List Byte)
  | WRITE_AVAILABLE
  | SHUTDOWN
  | CLOSE
  deriving DecidableEq

/-- Descriptor events delivered to `reactor_stream_event`. -/
inductive DescEvent
  | ERROR
  | READ
  | WRITE
  | SHUTDOWN
  | CLOSE
  deriving DecidableEq

/-- The thread-local pointer `current`: `NULL`, this stream, or another stream. -/
inductive Current
  | null
  | self
  | other
  deriving DecidableEq

/-- One scripted answer of the descriptor to a write: `accept k` takes up to
`k` of the bytes offered, `failed e` returns `-1` with `errno = e`. -/
inductive WriteRes
  | accept (k : Nat)
  | failed (e : Nat)
  deriving DecidableEq

/-- One scripted answer of the descriptor to a read: the bytes placed in the
caller's buffer (none at all when the peer has closed), or `-1` with `errno = e`. -/
inductive ReadRes
  | data (bs : List Byte)
  | failed (e : Nat)
  deriving DecidableEq

/-- A call made to the descriptor, as recorded in the log `calls`. -/
inductive DescCall
  | opened (fd : Nat)
  | read (n : Int)
  | write (offered : List Byte) (n : Int)
  | read_notify (flag : Bool)
  | write_notify (flag : Bool)
  | close
  deriving DecidableEq

/-- The value of `errno` that means would-block. -/
def EAGAIN : Nat := 11

/-- The largest `size_t`. -/
def SIZE_MAX : Nat := 18446744073709551615

/-- Conversion of a `size_t` to `ssize_t` (two's complement, 64 bits). -/
def to_ssize (i : Nat) : Int :=
  if i % 18446744073709551616 < 9223372036854775808 then ((i % 18446744073709551616 : Nat) : Int)
  else ((i % 18446744073709551616 : Nat) : Int) - 18446744073709551616

/-- Conversion of an `ssize_t` to `size_t`. -/
def to_size (n : Int) : Nat := (n % 18446744073709551616).toNat

/-- The stream, the thread-local state and the collaborators of the stream. -/
structure World where
  /-- Field `state` of the stream. -/
  state : State
  /-- Bit `REACTOR_STREAM_FLAGS_BLOCKED` of the field `flags`. -/
  blocked : Bool
  /-- Buffer `input` of the stream. -/
  input : List Byte
  /-- Buffer `output` of the stream. -/
  output : List Byte
  /-- The thread-local `current`. -/
  current : Current
  /-- The thread-local `errno`. -/
  errno : Nat
  /-- Descriptor: the handle it is bound to. -/
  fd : Option Nat
  /-- Descriptor: read-readiness notification is on. -/
  read_notify : Bool
  /-- Descriptor: write-readiness notification is on. -/
  write_notify : Bool
  /-- Descriptor: number of close requests received. -/
  close_requests : Nat
  /-- Descriptor: every call received, oldest first. -/
  calls : List DescCall
  /-- Raw handles closed with `close(2)`. -/
  closed_handles : List Nat
  /-- Script of the answers of the descriptor to the coming writes. -/
  writes : List WriteRes
  /-- Script of the answers of the descriptor to the coming reads. -/
  reads : List ReadRes
  /-- Script of the outcomes of the coming buffer allocations (`true`: success). -/
  allocs : List Bool
  /-- Events dispatched to the user callback, oldest first. -/
  events : List Event
  deriving DecidableEq

/-- The user callback: it receives the event and the world, and gives back the
world it leaves and, for a `READ` event, the view it leaves in `*data`. -/
abbrev Callback := Event → World → World × List Byte

/-- A callback that changes nothing in the world. -/
def Callback.passive (cb : Callback) : Prop := ∀ ev w, (cb ev w).1 = w

/-- The callback that ignores every event and reports everything consumed. -/
def ignore : Callback := fun _ w => (w, [])

/-! ## Collaborators -/

/-- Modelled from the spec: the descriptor's non-blocking
`write(buffer, size) -> bytes_written | would_block | error`
(`reactor_desc_write`, not in the file under study).  The answer is the next
entry of the script; it never exceeds the number of bytes offered. -/
def reactor_desc_write (w : World) (buf : List Byte) : Option (Int × World) :=
  match w.writes with
  | [] => none
  | WriteRes.accept k :: rest =>
    some ((min k buf.length : Nat),
      { w with writes := rest, calls := w.calls ++ [DescCall.write buf (min k buf.length : Nat)] })
  | WriteRes.failed e :: rest =>
    some (-1, { w with writes := rest, errno := e, calls := w.calls ++ [DescCall.write buf (-1)] })

/-- Modelled from the spec: the descriptor's non-blocking
`read(buffer, capacity) -> bytes_read | would_block | error`
(`reactor_desc_read`); gives the return value and the bytes placed in the buffer. -/
def reactor_desc_read (w : World) : Option (Int × List Byte × World) :=
  match w.reads with
  | [] => none
  | ReadRes.data bs :: rest =>
    some ((bs.length : Nat), bs,
      { w with reads := rest, calls := w.calls ++ [DescCall.read (bs.length : Nat)] })
  | ReadRes.failed e :: rest =>
    some (-1, [], { w with reads := rest, errno := e, calls := w.calls ++ [DescCall.read (-1)] })

/-- Modelled from the spec: `request_write_notifications(bool)` (`reactor_desc_write_notify`). -/
def reactor_desc_write_notify (w : World) (flag : Bool) : World :=
  { w with write_notify := flag, calls := w.calls ++ [DescCall.write_notify flag] }

/-- Modelled from the spec: `request_read_notifications(bool)` (`reactor_desc_read_notify`). -/
def reactor_desc_read_notify (w : World) (flag : Bool) : World :=
  { w with read_notify := flag, calls := w.calls ++ [DescCall.read_notify flag] }

/-- Modelled from the spec: `request_close()` (`reactor_desc_close`), an
asynchronous request: finalization comes with a later `CLOSE` event. -/
def reactor_desc_close (w : World) : World :=
  { w with close_requests := w.close_requests + 1, calls := w.calls ++ [DescCall.close] }

/-- Modelled from the spec: `open(handle)` (`reactor_desc_open`) binds the handle. -/
def reactor_desc_open (w : World) (fd : Nat) : World :=
  { w with fd := some fd, calls := w.calls ++ [DescCall.opened fd] }

/-- Size of a byte buffer. -/
def buffer_size (b : List Byte) : Nat := b.length

/-- Contents of a byte buffer. -/
def buffer_data (b : List Byte) : List Byte := b

/-- Modelled from the spec: the byte buffer's insert-at-offset (`buffer_insert`
of the buffer library).  It returns `0` and the grown buffer, or `-1` and the
buffer unchanged when the allocation fails; the outcome of the allocation is
the next entry of the script `allocs`. -/
def buffer_insert (w : World) (b : List Byte) (position : Nat) (data : List Byte) :
    Option (Int × List Byte × World) :=
  match w.allocs with
  | [] => none
  | true :: rest => some (0, b.take position ++ data ++ b.drop position, { w with allocs := rest })
  | false :: rest => some (-1, b, { w with allocs := rest })

/-- Modelled from the spec: the byte buffer's erase-at-offset (`buffer_erase`). -/
def buffer_erase (b : List Byte) (position size : Nat) : List Byte :=
  b.take position ++ b.drop (position + size)

/-- Modelled from the spec: `buffer_clear` empties a buffer. -/
def buffer_clear (_b : List Byte) : List Byte := []

/-- Modelled from the spec: `dispatch(event_tag, optional_payload)`
(`reactor_user_dispatch`): the event is recorded and the callback runs. -/
def reactor_user_dispatch (cb : Callback) (ev : Event) (w : World) : World × List Byte :=
  cb ev { w with events := w.events ++ [ev] }

/-! ## The stream (`reactor_stream.c`) -/

/-- The loop of `reactor_stream_desc_write`, entered with `i` bytes accepted.
Every iteration takes one answer from the script, so a fuel larger than the
length of the script is never used up. -/
def desc_write_loop (data : List Byte) : Nat → Nat → World → Option (Nat × World)
  | 0, _, _ => none
  | fuel + 1, i, w =>
    if i < data.length then
      match reactor_desc_write w (data.drop i) with
      | none => none
      | some (n, w1) =>
        if n = -1 then some (i, { w1 with blocked := true })
        else desc_write_loop data fuel (i + n.toNat) w1
    else some (i, w)

/-- The function `reactor_stream_desc_write`: the number of bytes accepted and the world left. -/
def reactor_stream_desc_write (w : World) (data : List Byte) : Option (Nat × World) :=
  match desc_write_loop data (w.writes.length + 1) 0 w with
  | none => none
  | some (i, w1) => some (i, reactor_desc_write_notify w1 (i != data.length))

/-- The function `reactor_stream_init`. -/
def reactor_stream_init (w : World) : World :=
  { w with state := State.CLOSED, blocked := false, input := [], output := [],
           fd := none, read_notify := false, write_notify := false }

/-- The function `reactor_stream_error`. -/
def reactor_stream_error (cb : Callback) (w : World) : World :=
  (reactor_user_dispatch cb Event.ERROR { w with state := State.INVALID }).1

/-- The function `reactor_stream_open`. -/
def reactor_stream_open (cb : Callback) (w : World) (fd : Nat) : World :=
  if w.state ≠ State.CLOSED then
    reactor_stream_error cb { w with closed_handles := w.closed_handles ++ [fd] }
  else
    reactor_desc_open { w with state := State.OPEN } fd

/-- The function `reactor_stream_close`. -/
def reactor_stream_close (w : World) : World :=
  if w.state ≠ State.OPEN ∧ w.state ≠ State.LINGER ∧ w.state ≠ State.INVALID then w
  else reactor_desc_close w

/-- The function `reactor_stream_shutdown`. -/
def reactor_stream_shutdown (w : World) : World :=
  if w.state ≠ State.OPEN ∧ w.state ≠ State.INVALID then w
  else if w.state = State.OPEN ∧ buffer_size w.output ≠ 0 then
    reactor_desc_read_notify { w with state := State.LINGER } false
  else reactor_stream_close w

/-- The function `reactor_stream_close_final`. -/
def reactor_stream_close_final (cb : Callback) (w : World) : World :=
  let w1 := if w.current = Current.self then { w with current := Current.null } else w
  (reactor_user_dispatch cb Event.CLOSE
    { w1 with input := buffer_clear w1.input, output := buffer_clear w1.output,
              state := State.CLOSED }).1

/-- The function `reactor_stream_write`. -/
def reactor_stream_write (cb : Callback) (w : World) (base : List Byte) : Option World :=
  match buffer_insert w w.output (buffer_size w.output) base with
  | none => none
  | some (e, b, w1) =>
    if e = -1 then some (reactor_stream_error cb { w1 with output := b })
    else some { w1 with output := b }

/-- The function `reactor_stream_write_direct`. -/
def reactor_stream_write_direct (cb : Callback) (w : World) (base : List Byte) : Option World :=
  if w.state ≠ State.OPEN ∧ w.state ≠ State.LINGER then some w
  else if buffer_size w.output ≠ 0 then reactor_stream_write cb w base
  else
    match reactor_stream_desc_write w base with
    | none => none
    | some (n, w1) =>
      if n < base.length then
        if w1.errno ≠ EAGAIN then some (reactor_stream_error cb w1)
        else reactor_stream_write cb w1 (base.drop n)
      else some w1

/-- The function `reactor_stream_flush`; `n` is the `ssize_t` that receives
the `size_t` result of `reactor_stream_desc_write`. -/
def reactor_stream_flush (cb : Callback) (w : World) : Option World :=
  if w.state ≠ State.OPEN ∧ w.state ≠ State.LINGER then some w
  else
    match reactor_stream_desc_write w (buffer_data w.output) with
    | none => none
    | some (i, w1) =>
      let n : Int := to_ssize i
      if n = -1 ∧ w1.errno ≠ EAGAIN then some (reactor_stream_error cb w1)
      else
        let w2 := { w1 with output := buffer_erase w1.output 0 (to_size n) }
        if w2.state = State.LINGER ∧ buffer_size w2.output = 0 then some (reactor_stream_close w2)
        else some w2

/-- The function `reactor_stream_read`. -/
def reactor_stream_read (cb : Callback) (w : World) : Option World :=
  match reactor_desc_read w with
  | none => none
  | some (n, buffer, w1) =>
    if n = -1 ∧ w1.errno ≠ EAGAIN then some (reactor_stream_error cb w1)
    else if n = 0 then some (reactor_stream_shutdown w1)
    else if n > 0 then
      let r := reactor_user_dispatch cb (Event.READ buffer) { w1 with current := Current.self }
      if r.1.current ≠ Current.null ∧ r.2.length ≠ 0 then
        match buffer_insert r.1 r.1.input (buffer_size r.1.input) r.2 with
        | none => none
        | some (_, b, w2) => some { w2 with input := b }
      else some r.1
    else some w1

/-- The function `reactor_stream_event`. -/
def reactor_stream_event (cb : Callback) (type : DescEvent) (w : World) : Option World :=
  match type with
  | DescEvent.ERROR => some (reactor_stream_error cb w)
  | DescEvent.READ =>
    if w.state ≠ State.OPEN then some w
    else
      match reactor_stream_read cb { w with current := Current.self } with
      | none => none
      | some w1 =>
        if w1.current ≠ Current.null ∧ w1.blocked = false then reactor_stream_flush cb w1
        else some w1
  | DescEvent.WRITE =>
    match reactor_stream_flush cb { w with blocked := false, current := Current.self } with
    | none => none
    | some w1 =>
      if w1.current ≠ Current.null ∧ w1.state = State.OPEN ∧ w1.blocked = false then
        some (reactor_user_dispatch cb Event.WRITE_AVAILABLE w1).1
      else some w1
  | DescEvent.SHUTDOWN => some (reactor_user_dispatch cb Event.SHUTDOWN w).1
  | DescEvent.CLOSE => some (reactor_stream_close_final cb w)

/-! ## Observations and runs -/

/-- The world before anything has happened: a stream just initialised, a
descriptor that has received no call, empty scripts. -/
def idle : World :=
  { state := State.CLOSED, blocked := false, input := [], output := [],
    current := Current.null, errno := 0, fd := none, read_notify := false,
    write_notify := false, close_requests := 0, calls := [], closed_handles := [],
    writes := [], reads := [], allocs := [], events := [] }

/-- The bytes the descriptor has accepted, in the order it accepted them, read off the log of calls. -/
def accepted_bytes : List DescCall → List Byte
  | [] => []
  | DescCall.write offered n :: cs =>
    (if 0 ≤ n then offered.take n.toNat else []) ++ accepted_bytes cs
  | _ :: cs => accepted_bytes cs

/-- A scripted answer to a write that is either progress (at least one byte
accepted) or would-block: never zero bytes, never a hard error. -/
def WriteRes.polite : WriteRes → Bool
  | WriteRes.accept k => decide (1 ≤ k)
  | WriteRes.failed e => decide (e = EAGAIN)

/-- The script of a descriptor that accepts `ks[0]`, then `ks[1]`, ... bytes. -/
def accepts (ks : List Nat) : List WriteRes := ks.map WriteRes.accept

/-- One step of an application that writes and of a descriptor that reports write readiness. -/
inductive Op
  | write (base : List Byte)
  | write_direct (base : List Byte)
  | write_ready
  deriving DecidableEq

/-- The effect of one step. -/
def step (cb : Callback) : Op → World → Option World
  | Op.write base, w => reactor_stream_write cb w base
  | Op.write_direct base, w => reactor_stream_write_direct cb w base
  | Op.write_ready, w => reactor_stream_event cb DescEvent.WRITE w

/-- The effect of a sequence of steps, first step first. -/
def run (cb : Callback) : List Op → World → Option World
  | [], w => some w
  | op :: ops, w =>
    match step cb op w with
    | none => none
    | some w1 => run cb ops w1

/-- The payload of one step. -/
def Op.payload : Op → List Byte
  | Op.write base => base
  | Op.write_direct base => base
  | Op.write_ready => []

/-- The concatenation of the payloads of a sequence of steps, in call order. -/
def payloads : List Op → List Byte
  | [] => []
  | op :: ops => op.payload ++ payloads ops


/-! ## Callbacks that act on the stream, and runs of the public operations -/

/-- A callback that consumes `n` bytes of the view of a `READ` event and
reports the rest as unconsumed; it leaves the stream alone. -/
def consuming (n : Nat) : Callback := fun ev w =>
  match ev with
  | Event.READ data => (w, data.drop n)
  | _ => (w, [])

/-- A public operation of the stream, or a descriptor event delivered to it. -/
inductive Action
  | do_open (fd : Nat)
  | write (base : List Byte)
  | write_direct (base : List Byte)
  | shutdown
  | close
  | event (type : DescEvent)
  deriving DecidableEq

/-- The effect of one action. -/
def act (cb : Callback) : Action → World → Option World
  | Action.do_open fd, w => some (reactor_stream_open cb w fd)
  | Action.write base, w => reactor_stream_write cb w base
  | Action.write_direct base, w => reactor_stream_write_direct cb w base
  | Action.shutdown, w => some (reactor_stream_shutdown w)
  | Action.close, w => some (reactor_stream_close w)
  | Action.event type, w => reactor_stream_event cb type w

/-- The effect of a sequence of actions, first action first. -/
def exec (cb : Callback) : List Action → World → Option World
  | [], w => some w
  | a :: rest, w =>
    match act cb a w with
    | none => none
    | some w1 => exec cb rest w1

/-- Along the run, `write` is never called while the stream is Closed. -/
def writes_not_while_closed (cb : Callback) : List Action → World → Bool
  | [], _ => true
  | a :: rest, w =>
    (match a with
     | Action.write _ => decide (w.state ≠ State.CLOSED)
     | _ => true)
    && (match act cb a w with
        | none => true
        | some w1 => writes_not_while_closed cb rest w1)

/-- The calls are descriptor writes that offer the bytes of `data` in order:
the first offers everything from offset `j`, each next one everything after
what has been accepted so far. -/
def offered_in_order (data : List Byte) : Nat → List DescCall → Bool
  | _, [] => true
  | j, DescCall.write offered n :: cs =>
    decide (offered = data.drop j) && offered_in_order data (j + n.toNat) cs
  | _, _ :: _ => false

/-- The calls are descriptor writes whose results are the answers of the
script, one answer per call and in the order of the script: a call answered
`accept k` returns `k`, or all the bytes it offers if they are fewer; a call
answered `failed e` returns `-1`. -/
def answers_script : List WriteRes → List DescCall → Bool
  | _, [] => true
  | WriteRes.accept k :: script, DescCall.write offered n :: cs =>
    decide (n = ((min k offered.length : Nat) : Int)) && answers_script script cs
  | WriteRes.failed _ :: script, DescCall.write _ n :: cs =>
    decide (n = -1) && answers_script script cs
  | _, _ :: _ => false

/-- A scripted answer to a write that fails or accepts at least one byte. -/
def WriteRes.fails_or_progresses : WriteRes → Bool
  | WriteRes.accept k => decide (1 ≤ k)
  | WriteRes.failed _ => true

/-- The world handed to the callback with the `READ` event of a read cycle
started in `w`, when the descriptor read has returned the bytes `bs`: the
answer is taken from the script, the call and the event are in the logs, and
the marker `current` designates the stream. -/
def read_dispatched (w : World) (bs : List Byte) (rest : List ReadRes) : World :=
  { w with current := Current.self, reads := rest,
           calls := w.calls ++ [DescCall.read (bs.length : Nat)],
           events := w.events ++ [Event.READ bs] }

/-! ## Lemmas: conversions and collaborators -/

theorem to_ssize_ne_neg_one (i : Nat) (h : i < SIZE_MAX) : to_ssize i ≠ -1 := by
  unfold to_ssize
  unfold SIZE_MAX at h
  split <;> omega

theorem to_size_to_ssize (i : Nat) (h : i < SIZE_MAX) : to_size (to_ssize i) = i := by
  unfold to_ssize to_size
  unfold SIZE_MAX at h
  split <;> omega

theorem error_spec (cb : Callback) (hcb : cb.passive) (w : World) :
    reactor_stream_error cb w
      = { w with state := State.INVALID, events := w.events ++ [Event.ERROR] } := by
  simp [reactor_stream_error, reactor_user_dispatch, hcb _ _]

theorem accepted_bytes_append (a b : List DescCall) :
    accepted_bytes (a ++ b) = accepted_bytes a ++ accepted_bytes b := by
  induction a with
  | nil => simp [accepted_bytes]
  | cons c cs ih => cases c <;> simp [accepted_bytes, ih]

/-! ## Lemmas: the write loop -/

/-- While the descriptor accepts the chunks `ks`, the loop advances by their sum. -/
theorem desc_write_loop_accepts (data : List Byte) :
    ∀ (ks : List Nat) (f i : Nat) (w : World) (tail : List WriteRes),
      w.writes = accepts ks ++ tail → (∀ k ∈ ks, 1 ≤ k) → i + ks.sum ≤ data.length →
      ∃ w2, desc_write_loop data (ks.length + f) i w = desc_write_loop data f (i + ks.sum) w2
        ∧ w2 = { w with writes := tail, calls := w2.calls }
        ∧ accepted_bytes w2.calls = accepted_bytes w.calls ++ (data.drop i).take ks.sum := by
  intro ks
  induction ks with
  | nil =>
    intro f i w tail hw _ _
    refine ⟨w, by simp, ?_, by simp⟩
    simp [accepts] at hw
    cases w
    simp_all
  | cons k ks ih =>
    intro f i w tail hw hk hsum
    have hk1 : 1 ≤ k := hk k (by simp)
    simp only [List.sum_cons] at hsum
    have hi : i < data.length := by omega
    have hmin : min k (data.length - i) = k := by omega
    have hw1 : w.writes = WriteRes.accept k :: (accepts ks ++ tail) := by
      simpa [accepts] using hw
    obtain ⟨w2, h1, h2, h3⟩ := ih f (i + k)
      { w with writes := accepts ks ++ tail,
               calls := w.calls ++ [DescCall.write (data.drop i) (k : Nat)] } tail rfl
      (fun x hx => hk x (by simp [hx])) (by omega)
    refine ⟨w2, ?_, ?_, ?_⟩
    · have hfuel : (k :: ks).length + f = (ks.length + f) + 1 := by simp; omega
      rw [hfuel, desc_write_loop]
      simp only [hi, if_true, reactor_desc_write, hw1, List.length_drop, hmin]
      have hne : ((k : Nat) : Int) ≠ -1 := by omega
      simp only [hne, if_false, Int.toNat_ofNat]
      rw [h1, List.sum_cons, Nat.add_assoc]
    · rw [h2]
    · rw [h3]
      simp only [accepted_bytes_append, accepted_bytes, List.sum_cons]
      have : (0 : Int) ≤ (k : Nat) := by omega
      simp only [this, if_true, Int.toNat_ofNat, List.append_nil, List.append_assoc]
      rw [List.take_add, List.drop_drop]

/-- What the loop leaves, whatever the descriptor answers. -/
theorem desc_write_loop_spec (data : List Byte) :
    ∀ (fuel i : Nat) (w : World) (n : Nat) (w' : World),
      desc_write_loop data fuel i w = some (n, w') → i ≤ data.length →
      w' = { w with blocked := w'.blocked, errno := w'.errno, calls := w'.calls,
                    writes := w'.writes }
      ∧ i ≤ n ∧ n ≤ data.length
      ∧ accepted_bytes w'.calls = accepted_bytes w.calls ++ (data.drop i).take (n - i)
      ∧ (n < data.length → w'.blocked = true ∧ WriteRes.failed w'.errno ∈ w.writes)
      ∧ (n = data.length → w'.blocked = w.blocked ∧ w'.errno = w.errno)
      ∧ (∀ r ∈ w'.writes, r ∈ w.writes)
      ∧ ((∀ r ∈ w.writes, r.polite = true) →
          w.writes.length ≤ w'.writes.length + (n - i) + 1) := by
  intro fuel
  induction fuel with
  | zero => intro i w n w' h; simp [desc_write_loop] at h
  | succ fuel ih =>
    intro i w n w' h hi
    rw [desc_write_loop] at h
    by_cases hlt : i < data.length
    · simp only [hlt, if_true] at h
      cases hw : w.writes with
      | nil => simp [reactor_desc_write, hw] at h
      | cons r rest =>
        cases r with
        | accept k =>
          simp only [reactor_desc_write, hw] at h
          have hne : ((min k (data.drop i).length : Nat) : Int) ≠ -1 := by omega
          simp only [hne, if_false, Int.toNat_ofNat, List.length_drop] at h
          obtain ⟨h1, h2, h3, h4, h5, h6, h7, h8⟩ := ih _ _ _ _ h (by omega)
          dsimp only at h1 h4 h5 h6 h7 h8
          refine ⟨?_, by omega, h3, ?_, ?_, ?_, ?_, ?_⟩
          · rw [h1]
          · rw [h4, accepted_bytes_append]
            simp only [accepted_bytes, List.append_nil, List.append_assoc, List.length_drop]
            have h0 : (0 : Int) ≤ ((min k (data.length - i) : Nat) : Int) := by omega
            simp only [h0, if_true, Int.toNat_ofNat]
            have hsplit : n - i = min k (data.length - i) + (n - (i + min k (data.length - i))) := by
              omega
            rw [hsplit, List.take_add, List.drop_drop]
          · intro hn
            obtain ⟨hb, hm⟩ := h5 hn
            exact ⟨hb, by simp [hm]⟩
          · intro hn
            simpa using h6 hn
          · intro r hr
            simp [h7 r hr]
          · intro hp
            have hk : 1 ≤ k := by
              have := hp (WriteRes.accept k) (by simp)
              simpa [WriteRes.polite] using this
            have := h8 (fun r hr => hp r (by simp [hr]))
            simp only [List.length_cons]
            omega
        | failed e =>
          simp only [reactor_desc_write, hw] at h
          simp only [if_true, Option.some.injEq, Prod.mk.injEq] at h
          obtain ⟨rfl, rfl⟩ := h
          refine ⟨?_, le_refl _, by omega, by simp [accepted_bytes_append, accepted_bytes],
            ?_, ?_, ?_, ?_⟩
          · simp [hw]
          · intro _; simp
          · intro hn; omega
          · intro r hr; simpa using Or.inr hr
          · intro _; simp
    · simp only [hlt, if_false, Option.some.injEq, Prod.mk.injEq] at h
      obtain ⟨rfl, rfl⟩ := h
      refine ⟨rfl, le_refl _, hi, by simp, ?_, ?_, ?_, ?_⟩
      · intro hn; omega
      · intro _; exact ⟨rfl, rfl⟩
      · intro r hr; exact hr
      · intro _; omega

/-- With a descriptor that makes progress or blocks, and enough scripted
answers, the loop returns. -/
theorem desc_write_loop_returns (data : List Byte) :
    ∀ (fuel i : Nat) (w : World), w.writes.length < fuel →
      (∀ r ∈ w.writes, r.polite = true) → data.length - i ≤ w.writes.length →
      ∃ n w', desc_write_loop data fuel i w = some (n, w') := by
  intro fuel
  induction fuel with
  | zero => intro i w h; omega
  | succ fuel ih =>
    intro i w hf hp hlen
    rw [desc_write_loop]
    by_cases hlt : i < data.length
    · simp only [hlt, if_true]
      cases hw : w.writes with
      | nil => rw [hw] at hlen; simp at hlen; omega
      | cons r rest =>
        rw [hw] at hf hlen hp
        simp only [List.length_cons] at hf hlen
        cases r with
        | accept k =>
          have hk : 1 ≤ k := by
            have := hp (WriteRes.accept k) (by simp)
            simpa [WriteRes.polite] using this
          simp only [reactor_desc_write, hw]
          have hne : ((min k (data.drop i).length : Nat) : Int) ≠ -1 := by omega
          simp only [hne, if_false, Int.toNat_ofNat, List.length_drop]
          apply ih
          · simp; omega
          · intro r hr; exact hp r (by simp [hr])
          · simp; omega
        | failed e =>
          simp [reactor_desc_write, hw]
    · simp [hlt]

/-- What `reactor_stream_desc_write` leaves, whatever the descriptor answers. -/
theorem desc_write_spec (w : World) (data : List Byte) (n : Nat) (w' : World)
    (h : reactor_stream_desc_write w data = some (n, w')) :
    w' = { w with blocked := w'.blocked, errno := w'.errno, calls := w'.calls,
                  writes := w'.writes, write_notify := (n != data.length) }
    ∧ n ≤ data.length
    ∧ accepted_bytes w'.calls = accepted_bytes w.calls ++ data.take n
    ∧ (n < data.length → w'.blocked = true ∧ WriteRes.failed w'.errno ∈ w.writes)
    ∧ (n = data.length → w'.blocked = w.blocked ∧ w'.errno = w.errno)
    ∧ (∀ r ∈ w'.writes, r ∈ w.writes)
    ∧ ((∀ r ∈ w.writes, r.polite = true) → w.writes.length ≤ w'.writes.length + n + 1) := by
  unfold reactor_stream_desc_write at h
  cases hl : desc_write_loop data (w.writes.length + 1) 0 w with
  | none => simp [hl] at h
  | some r =>
    obtain ⟨m, w1⟩ := r
    simp only [hl, Option.some.injEq, Prod.mk.injEq] at h
    obtain ⟨rfl, rfl⟩ := h
    obtain ⟨h1, _, h3, h4, h5, h6, h7, h8⟩ := desc_write_loop_spec data _ _ _ _ _ hl (Nat.zero_le _)
    refine ⟨?_, h3, ?_, ?_, ?_, ?_, ?_⟩
    · rw [h1]; simp [reactor_desc_write_notify]
    · simpa [reactor_desc_write_notify, accepted_bytes_append, accepted_bytes] using h4
    · simpa [reactor_desc_write_notify] using h5
    · simpa [reactor_desc_write_notify] using h6
    · simpa [reactor_desc_write_notify] using h7
    · simpa [reactor_desc_write_notify] using h8

/-- With a descriptor that makes progress or blocks and enough scripted
answers, `reactor_stream_desc_write` returns. -/
theorem desc_write_returns (w : World) (data : List Byte)
    (hp : ∀ r ∈ w.writes, r.polite = true) (hlen : data.length ≤ w.writes.length) :
    ∃ n w', reactor_stream_desc_write w data = some (n, w') := by
  obtain ⟨n, w1, h⟩ := desc_write_loop_returns data (w.writes.length + 1) 0 w
    (Nat.lt_succ_self _) hp (by omega)
  exact ⟨n, reactor_desc_write_notify w1 (n != data.length), by
    simp [reactor_stream_desc_write, h]⟩

/-- The descriptor accepts everything, in the chunks `ks`. -/
theorem desc_write_all (w : World) (data : List Byte) (ks : List Nat) (tail : List WriteRes)
    (hw : w.writes = accepts ks ++ tail) (hk : ∀ k ∈ ks, 1 ≤ k) (hsum : ks.sum = data.length) :
    ∃ w', reactor_stream_desc_write w data = some (data.length, w')
      ∧ w' = { w with writes := tail, calls := w'.calls, write_notify := false }
      ∧ accepted_bytes w'.calls = accepted_bytes w.calls ++ data := by
  obtain ⟨w2, h1, h2, h3⟩ := desc_write_loop_accepts data ks (tail.length + 1) 0 w tail hw hk
    (by omega)
  have hfuel : w.writes.length + 1 = ks.length + (tail.length + 1) := by
    simp [hw, accepts]; omega
  refine ⟨reactor_desc_write_notify w2 false, ?_, ?_, ?_⟩
  · unfold reactor_stream_desc_write
    rw [hfuel, h1, desc_write_loop]
    simp [hsum]
  · rw [h2]; simp [reactor_desc_write_notify]
  · simp [reactor_desc_write_notify, accepted_bytes_append, accepted_bytes, h3, ← hsum]

/-- The descriptor accepts the chunks `ks`, fewer bytes than offered, then fails with `errno = e`. -/
theorem desc_write_stopped (w : World) (data : List Byte) (ks : List Nat) (e : Nat)
    (rest : List WriteRes)
    (hw : w.writes = accepts ks ++ WriteRes.failed e :: rest) (hk : ∀ k ∈ ks, 1 ≤ k)
    (hsum : ks.sum < data.length) :
    ∃ w', reactor_stream_desc_write w data = some (ks.sum, w')
      ∧ w' = { w with writes := rest, blocked := true, errno := e, calls := w'.calls,
                      write_notify := true }
      ∧ accepted_bytes w'.calls = accepted_bytes w.calls ++ data.take ks.sum := by
  obtain ⟨w2, h1, h2, h3⟩ := desc_write_loop_accepts data ks (rest.length + 1 + 1) 0 w
    (WriteRes.failed e :: rest) hw hk (by omega)
  have hfuel : w.writes.length + 1 = ks.length + (rest.length + 1 + 1) := by
    simp [hw, accepts]; omega
  have hw2 : w2.writes = WriteRes.failed e :: rest := by rw [h2]
  have hne : (ks.sum != data.length) = true := by simp; omega
  refine ⟨reactor_desc_write_notify
    { w2 with writes := rest, errno := e, blocked := true,
              calls := w2.calls ++ [DescCall.write (data.drop ks.sum) (-1)] } true, ?_, ?_, ?_⟩
  · unfold reactor_stream_desc_write
    rw [hfuel, h1, desc_write_loop]
    simp [hsum, reactor_desc_write, hw2, hne]
  · rw [h2]; simp [reactor_desc_write_notify]
  · simp [reactor_desc_write_notify, accepted_bytes_append, accepted_bytes, h3]

/-! ## Lemmas: flush -/

/-- The flush of an Open or Linger stream, once the write loop has returned a
count below `SIZE_MAX`: the count is erased from the front of the queue, and a
lingering stream whose queue is then empty requests the descriptor close. -/
theorem flush_of_desc_write (cb : Callback) (w : World) (i : Nat) (w1 : World)
    (hst : w.state = State.OPEN ∨ w.state = State.LINGER)
    (h : reactor_stream_desc_write w w.output = some (i, w1)) (hi : i < SIZE_MAX) :
    reactor_stream_flush cb w
      = some (if w1.state = State.LINGER ∧ w1.output.drop i = []
              then reactor_stream_close { w1 with output := w1.output.drop i }
              else { w1 with output := w1.output.drop i }) := by
  have hg : ¬ (w.state ≠ State.OPEN ∧ w.state ≠ State.LINGER) := by
    rcases hst with h | h <;> simp [h]
  have hn : ¬ (to_ssize i = -1 ∧ w1.errno ≠ EAGAIN) := fun hc => to_ssize_ne_neg_one _ hi hc.1
  unfold reactor_stream_flush
  rw [if_neg hg]
  simp only [buffer_data]
  rw [h]
  simp only [if_neg hn, to_size_to_ssize _ hi, buffer_erase, buffer_size, List.take_zero,
    List.nil_append, Nat.zero_add, List.length_eq_zero]
  split <;> simp

/-- A flush of a lingering stream requests the descriptor close exactly when
it leaves the output queue empty. -/
theorem flush_linger_close_iff (cb : Callback) (hcb : cb.passive) (w w' : World)
    (h : reactor_stream_flush cb w = some w') (hst : w.state = State.LINGER) :
    (w'.close_requests = w.close_requests + 1 ∧ w'.output = [])
    ∨ (w'.close_requests = w.close_requests ∧ w'.output ≠ []) := by
  unfold reactor_stream_flush at h
  have hg : ¬ (w.state ≠ State.OPEN ∧ w.state ≠ State.LINGER) := by simp [hst]
  rw [if_neg hg] at h
  simp only [buffer_data] at h
  cases hd : reactor_stream_desc_write w w.output with
  | none => simp [hd] at h
  | some r =>
    obtain ⟨i, w1⟩ := r
    obtain ⟨hfr, hle, _⟩ := desc_write_spec w w.output i w1 hd
    have hs1 : w1.state = State.LINGER := by rw [hfr]; exact hst
    have ho1 : w1.output = w.output := by rw [hfr]
    have hc1 : w1.close_requests = w.close_requests := by rw [hfr]
    simp only [hd] at h
    by_cases hbr : to_ssize i = -1 ∧ w1.errno ≠ EAGAIN
    · rw [if_pos hbr, error_spec cb hcb] at h
      simp only [Option.some.injEq] at h
      right
      rw [← h]
      refine ⟨hc1, ?_⟩
      show w1.output ≠ []
      rw [ho1]
      intro he
      rw [he] at hle
      have hi0 : i = 0 := by simpa using hle
      rw [hi0] at hbr
      exact absurd hbr.1 (by decide)
    · rw [if_neg hbr] at h
      simp only [buffer_erase, buffer_size, List.take_zero, List.nil_append, Nat.zero_add, hs1,
        true_and] at h
      by_cases hz : (List.drop (to_size (to_ssize i)) w1.output).length = 0
      · simp only [hz, if_true, Option.some.injEq] at h
        left
        rw [← h]
        simp only [reactor_stream_close, hs1, reactor_desc_close]
        simp [hc1, List.length_eq_zero.mp hz]
      · simp only [hz, if_false, Option.some.injEq] at h
        right
        rw [← h]
        refine ⟨hc1, ?_⟩
        intro he
        apply hz
        simp only at he
        simp [he]

/-- A flush of a lingering stream with a queue of a size a buffer can have
leaves the state and read-readiness notification alone. -/
theorem flush_linger_frame (cb : Callback) (w w' : World)
    (h : reactor_stream_flush cb w = some w') (hst : w.state = State.LINGER)
    (hsize : w.output.length < SIZE_MAX) :
    w'.state = State.LINGER ∧ w'.read_notify = w.read_notify := by
  cases hd : reactor_stream_desc_write w w.output with
  | none =>
    unfold reactor_stream_flush at h
    simp [hst, buffer_data, hd] at h
  | some r =>
    obtain ⟨i, w1⟩ := r
    obtain ⟨hfr, hle, _⟩ := desc_write_spec w w.output i w1 hd
    have hs1 : w1.state = State.LINGER := by rw [hfr]; exact hst
    have hr1 : w1.read_notify = w.read_notify := by rw [hfr]
    rw [flush_of_desc_write cb w i w1 (Or.inr hst) hd (by omega)] at h
    simp only [Option.some.injEq] at h
    rw [← h]
    split <;> simp [reactor_stream_close, reactor_desc_close, hs1, hr1]

/-- In every state, a flush requests the descriptor close only when it leaves
the output queue empty; it never fills an empty queue. -/
theorem flush_close_only_when_drained (cb : Callback) (hcb : cb.passive) (w w' : World)
    (h : reactor_stream_flush cb w = some w') :
    (w'.output ≠ [] → w'.close_requests = w.close_requests)
    ∧ (w.output = [] → w'.output = []) := by
  by_cases hg : w.state ≠ State.OPEN ∧ w.state ≠ State.LINGER
  · unfold reactor_stream_flush at h
    rw [if_pos hg] at h
    simp only [Option.some.injEq] at h
    rw [← h]
    exact ⟨fun _ => rfl, fun ho => ho⟩
  · unfold reactor_stream_flush at h
    rw [if_neg hg] at h
    simp only [buffer_data] at h
    cases hd : reactor_stream_desc_write w w.output with
    | none => simp [hd] at h
    | some r =>
      obtain ⟨i, w1⟩ := r
      obtain ⟨hfr, _, _⟩ := desc_write_spec w w.output i w1 hd
      have ho1 : w1.output = w.output := by rw [hfr]
      have hc1 : w1.close_requests = w.close_requests := by rw [hfr]
      simp only [hd] at h
      by_cases hbr : to_ssize i = -1 ∧ w1.errno ≠ EAGAIN
      · rw [if_pos hbr, error_spec cb hcb] at h
        simp only [Option.some.injEq] at h
        rw [← h]
        exact ⟨fun _ => hc1, fun ho => by simp [ho1, ho]⟩
      · rw [if_neg hbr] at h
        simp only [buffer_erase, buffer_size, List.take_zero, List.nil_append, Nat.zero_add] at h
        by_cases hz : w1.state = State.LINGER
            ∧ (List.drop (to_size (to_ssize i)) w1.output).length = 0
        · rw [if_pos hz] at h
          simp only [Option.some.injEq] at h
          rw [← h]
          have hnil : List.drop (to_size (to_ssize i)) w1.output = [] :=
            List.length_eq_zero.mp hz.2
          simp [reactor_stream_close, hz.1, reactor_desc_close, hnil]
        · rw [if_neg hz] at h
          simp only [Option.some.injEq] at h
          rw [← h]
          exact ⟨fun _ => hc1, fun ho => by simp [ho1, ho]⟩

/-- A read cycle on an Open stream never changes the output queue, and
requests the descriptor close only when the output queue is empty. -/
theorem read_close_only_when_drained (cb : Callback) (hcb : cb.passive) (w w' : World)
    (h : reactor_stream_read cb w = some w') (hst : w.state = State.OPEN) :
    w'.output = w.output ∧ (w'.output ≠ [] → w'.close_requests = w.close_requests) := by
  unfold reactor_stream_read at h
  cases hr : w.reads with
  | nil => simp [reactor_desc_read, hr] at h
  | cons r rest =>
    cases r with
    | failed e =>
      simp only [reactor_desc_read, hr, error_spec cb hcb] at h
      split at h
      · simp only [Option.some.injEq] at h
        rw [← h]
        exact ⟨rfl, fun _ => rfl⟩
      · simp only [reduceCtorEq, Int.reduceNeg, Int.reduceLT, if_false] at h
        simp at h
        rw [← h]
        exact ⟨rfl, fun _ => rfl⟩
    | data bs =>
      simp only [reactor_desc_read, hr, reactor_user_dispatch, hcb _ _] at h
      have hnn : ¬ (((bs.length : Nat) : Int) = -1 ∧ w.errno ≠ EAGAIN) := by
        intro hc; omega
      rw [if_neg hnn] at h
      by_cases hb : ((bs.length : Nat) : Int) = 0
      · rw [if_pos hb] at h
        simp only [Option.some.injEq] at h
        rw [← h]
        by_cases ho : w.output = []
        · simp [reactor_stream_shutdown, reactor_stream_close, buffer_size,
            reactor_desc_read_notify, reactor_desc_close, hst, ho]
        · have hlen : w.output.length ≠ 0 := by simpa using ho
          simp [reactor_stream_shutdown, buffer_size, reactor_desc_read_notify, hst, hlen]
      · rw [if_neg hb] at h
        have hpos : ((bs.length : Nat) : Int) > 0 := by omega
        rw [if_pos hpos] at h
        split at h
        · cases ha : w.allocs with
          | nil => simp [buffer_insert, ha] at h
          | cons a arest =>
            cases a <;>
              (simp only [buffer_insert, ha, Option.some.injEq] at h
               rw [← h]
               exact ⟨rfl, fun _ => rfl⟩)
        · simp only [Option.some.injEq] at h
          rw [← h]
          exact ⟨rfl, fun _ => rfl⟩

/-! ## Lemmas: ordering of the bytes written -/

/-- An append to the output queue whose allocation succeeds. -/
theorem write_appends (cb : Callback) (w : World) (base : List Byte)
    (ha : ∀ b ∈ w.allocs, b = true) (hal : 1 ≤ w.allocs.length) :
    ∃ rest, w.allocs = true :: rest
      ∧ reactor_stream_write cb w base
          = some { w with allocs := rest, output := w.output ++ base } := by
  cases hA : w.allocs with
  | nil => rw [hA] at hal; simp at hal
  | cons a rest =>
    have hat : a = true := ha a (by simp [hA])
    subst hat
    refine ⟨rest, rfl, ?_⟩
    simp [reactor_stream_write, buffer_insert, hA, buffer_size]

/-- One step keeps the bytes in order: what the descriptor accepts during the
step, followed by the queue after it, is the queue before it followed by the payload. -/
theorem step_ordered (cb : Callback) (hcb : cb.passive) (op : Op) (w : World)
    (hst : w.state = State.OPEN) (hp : ∀ r ∈ w.writes, r.polite = true)
    (ha : ∀ b ∈ w.allocs, b = true) (hal : 1 ≤ w.allocs.length)
    (hwl : 1 + w.output.length + op.payload.length ≤ w.writes.length)
    (hsz : w.output.length + op.payload.length < SIZE_MAX) :
    ∃ w1 s, step cb op w = some w1 ∧ w1.state = State.OPEN
      ∧ (∀ r ∈ w1.writes, r ∈ w.writes) ∧ (∀ b ∈ w1.allocs, b ∈ w.allocs)
      ∧ w.allocs.length ≤ w1.allocs.length + 1
      ∧ accepted_bytes w1.calls = accepted_bytes w.calls ++ s
      ∧ s ++ w1.output = w.output ++ op.payload
      ∧ w.writes.length + w1.output.length
          ≤ w1.writes.length + 1 + w.output.length + op.payload.length := by
  have hg : ¬ (w.state ≠ State.OPEN ∧ w.state ≠ State.LINGER) := by simp [hst]
  cases op with
  | write base =>
    obtain ⟨rest, hA, hwr⟩ := write_appends cb w base ha hal
    refine ⟨_, [], hwr, hst, fun r hr => hr, ?_, ?_, by simp, by simp [Op.payload], ?_⟩
    · intro b hb; rw [hA]; exact List.mem_cons_of_mem _ hb
    · rw [hA]; simp
    · simp [Op.payload]; omega
  | write_direct base =>
    simp only [Op.payload] at hwl hsz ⊢
    by_cases ho : buffer_size w.output ≠ 0
    · obtain ⟨rest, hA, hwr⟩ := write_appends cb w base ha hal
      have hstep : step cb (Op.write_direct base) w
          = some { w with allocs := rest, output := w.output ++ base } := by
        simp only [step, reactor_stream_write_direct]
        rw [if_neg hg, if_pos ho, hwr]
      refine ⟨_, [], hstep, hst, fun r hr => hr, ?_, ?_, by simp, by simp, ?_⟩
      · intro b hb; rw [hA]; exact List.mem_cons_of_mem _ hb
      · rw [hA]; simp
      · simp; omega
    · have ho0 : w.output = [] := by
        simpa [buffer_size] using ho
      obtain ⟨n, w1, hd⟩ := desc_write_returns w base hp (by omega)
      obtain ⟨hfr, hle, hacc, hlt, _, hmem, hcons⟩ := desc_write_spec w base n w1 hd
      have hs1 : w1.state = State.OPEN := by rw [hfr]; exact hst
      have ho1 : w1.output = [] := by rw [hfr]; exact ho0
      have hA1 : w1.allocs = w.allocs := by rw [hfr]
      have hcons1 := hcons hp
      by_cases hn : n < base.length
      · obtain ⟨_, hfail⟩ := hlt hn
        have he : w1.errno = EAGAIN := by
          have := hp _ hfail
          simpa [WriteRes.polite] using this
        obtain ⟨rest, hA, hwr⟩ := write_appends cb w1 (base.drop n)
          (by rw [hA1]; exact ha) (by rw [hA1]; exact hal)
        have hstep : step cb (Op.write_direct base) w
            = some { w1 with allocs := rest, output := w1.output ++ base.drop n } := by
          simp only [step, reactor_stream_write_direct]
          rw [if_neg hg, if_neg ho]
          simp only [hd]
          rw [if_pos hn, if_neg (by simp [he]), hwr]
        refine ⟨_, base.take n, hstep, hs1, hmem, ?_, ?_, hacc, ?_, ?_⟩
        · intro b hb
          rw [← hA1, hA]
          exact List.mem_cons_of_mem _ hb
        · rw [← hA1, hA]; simp
        · simp [ho1, ho0]
        · simp [ho1, ho0]; omega
      · have hstep : step cb (Op.write_direct base) w = some w1 := by
          simp only [step, reactor_stream_write_direct]
          rw [if_neg hg, if_neg ho]
          simp only [hd]
          rw [if_neg hn]
        have hnb : n = base.length := by omega
        refine ⟨w1, base.take n, hstep, hs1, hmem, ?_, ?_, hacc, ?_, ?_⟩
        · intro b hb; rw [← hA1]; exact hb
        · rw [hA1]; omega
        · simp [ho1, ho0, hnb]
        · simp [ho1, ho0]; omega
  | write_ready =>
    simp only [Op.payload, List.length_nil, Nat.add_zero, List.append_nil] at hwl hsz ⊢
    obtain ⟨n, w1, hd⟩ := desc_write_returns { w with blocked := false, current := Current.self }
      w.output hp (by show w.output.length ≤ w.writes.length; omega)
    obtain ⟨hfr, hle, hacc, _, _, hmem, hcons⟩ :=
      desc_write_spec { w with blocked := false, current := Current.self } w.output n w1 hd
    have hs1 : w1.state = State.OPEN := by rw [hfr]; exact hst
    have ho1 : w1.output = w.output := by rw [hfr]
    have hA1 : w1.allocs = w.allocs := by rw [hfr]
    have hcons1 := hcons hp
    have hflush := flush_of_desc_write cb { w with blocked := false, current := Current.self }
      n w1 (Or.inl hst) hd (by omega)
    rw [if_neg (by simp [hs1])] at hflush
    have hstep : ∃ w2, step cb Op.write_ready w = some w2 ∧ w2.state = w1.state
        ∧ w2.writes = w1.writes ∧ w2.allocs = w1.allocs ∧ w2.calls = w1.calls
        ∧ w2.output = w1.output.drop n := by
      simp only [step, reactor_stream_event]
      rw [hflush]
      simp only []
      split
      · exact ⟨_, rfl, by simp [reactor_user_dispatch, hcb _ _]⟩
      · exact ⟨_, rfl, rfl, rfl, rfl, rfl, rfl⟩
    obtain ⟨w2, hstep, h2s, h2w, h2a, h2c, h2o⟩ := hstep
    refine ⟨w2, w.output.take n, hstep, by rw [h2s, hs1], ?_, ?_, ?_, ?_, ?_, ?_⟩
    · intro r hr; rw [h2w] at hr; exact hmem r hr
    · intro b hb; rw [h2a, hA1] at hb; exact hb
    · rw [h2a, hA1]; omega
    · rw [h2c]; exact hacc
    · rw [h2o, ho1]; simp
    · rw [h2o, ho1, h2w]
      simp only [List.length_drop]
      simp only [] at hcons1
      omega

theorem payloads_take_length (ops : List Op) :
    ∀ n, (payloads (ops.take n)).length ≤ (payloads ops).length := by
  induction ops with
  | nil => intro n; simp [payloads]
  | cons op ops ih =>
    intro n
    cases n with
    | zero => simp [payloads]
    | succ n =>
      have := ih n
      simp only [List.take_succ_cons, payloads, List.length_append]
      omega

/-- A run keeps the bytes in order. -/
theorem run_ordered (cb : Callback) (hcb : cb.passive) :
    ∀ (ops : List Op) (w : World), w.state = State.OPEN →
      (∀ r ∈ w.writes, r.polite = true) → (∀ b ∈ w.allocs, b = true) →
      ops.length ≤ w.allocs.length →
      ops.length + w.output.length + (payloads ops).length ≤ w.writes.length →
      w.output.length + (payloads ops).length < SIZE_MAX →
      ∃ w' s, run cb ops w = some w'
        ∧ accepted_bytes w'.calls = accepted_bytes w.calls ++ s
        ∧ s ++ w'.output = w.output ++ payloads ops := by
  intro ops
  induction ops with
  | nil =>
    intro w _ _ _ _ _ _
    exact ⟨w, [], rfl, by simp, by simp [payloads]⟩
  | cons op ops ih =>
    intro w hst hp ha hal hwl hsz
    simp only [payloads, List.length_append, List.length_cons] at hwl hsz hal
    obtain ⟨w1, s1, hstep, hs1, hmem, hamem, hal1, hacc1, hout1, hcons1⟩ :=
      step_ordered cb hcb op w hst hp ha (by omega) (by omega) (by omega)
    have hlen1 : s1.length + w1.output.length = w.output.length + op.payload.length := by
      have := congrArg List.length hout1
      simpa using this
    obtain ⟨w', s2, hrun, hacc2, hout2⟩ := ih w1 hs1 (fun r hr => hp r (hmem r hr))
      (fun b hb => ha b (hamem b hb)) (by omega) (by omega) (by omega)
    refine ⟨w', s1 ++ s2, ?_, ?_, ?_⟩
    · simp [run, hstep, hrun]
    · rw [hacc2, hacc1, List.append_assoc]
    · simp only [payloads]
      rw [List.append_assoc, hout2, ← List.append_assoc, hout1, List.append_assoc]

/-! ## Claims -/

/-- C1.  Ordering.  An Open stream whose output queue starts empty, and a
sequence `ops` of `write` calls, `write_direct` calls and WRITE readiness
events, with a callback that leaves the stream alone.  Every scripted answer of
the descriptor accepts at least one byte (and, as always, at most what is
offered) or reports would-block, every buffer append succeeds, the scripts
hold enough answers for the sequence, and the payloads fit in a buffer.  Then
after every step (after the first `n` steps, for every `n`) the run has a
result, in which the bytes accepted by the descriptor since the start,
followed by the contents of the output queue, are exactly the payloads of the
steps made, in call order. -/
theorem write_order_preserved (cb : Callback) (hcb : cb.passive) (w : World) (ops : List Op)
    (hst : w.state = State.OPEN) (hout : w.output = [])
    (hp : ∀ r ∈ w.writes, r.polite = true) (ha : ∀ b ∈ w.allocs, b = true)
    (hal : ops.length ≤ w.allocs.length)
    (hwl : ops.length + (payloads ops).length ≤ w.writes.length)
    (hsz : (payloads ops).length < SIZE_MAX) (n : Nat) :
    ∃ wn sent, run cb (ops.take n) w = some wn
      ∧ accepted_bytes wn.calls = accepted_bytes w.calls ++ sent
      ∧ sent ++ wn.output = payloads (ops.take n) := by
  have h1 := payloads_take_length ops n
  have h2 : (ops.take n).length ≤ ops.length := by simp
  obtain ⟨wn, sent, hrun, hacc, hord⟩ := run_ordered cb hcb (ops.take n) w hst hp ha
    (by omega) (by rw [hout]; simp only [List.length_nil]; omega)
    (by rw [hout]; simp only [List.length_nil]; omega)
  exact ⟨wn, sent, hrun, hacc, by rw [hord, hout]; simp⟩

/-- C1, witness: ten bytes written directly of which the descriptor takes four
before it blocks, two bytes queued behind them, then a WRITE readiness event. -/
theorem write_order_preserved_witness :
    ∃ wn sent,
      run ignore
        ([Op.write_direct [0, 1, 2, 3, 4, 5, 6, 7, 8, 9], Op.write [10, 11], Op.write_ready].take 3)
        { idle with state := State.OPEN,
                    writes := WriteRes.accept 4 :: WriteRes.failed EAGAIN
                      :: List.replicate 13 (WriteRes.accept 5),
                    allocs := [true, true, true] } = some wn
      ∧ accepted_bytes wn.calls = accepted_bytes [] ++ sent
      ∧ sent ++ wn.output
          = payloads ([Op.write_direct [0, 1, 2, 3, 4, 5, 6, 7, 8, 9], Op.write [10, 11],
              Op.write_ready].take 3) :=
  write_order_preserved ignore (fun _ _ => rfl)
    { idle with state := State.OPEN,
                writes := WriteRes.accept 4 :: WriteRes.failed EAGAIN
                  :: List.replicate 13 (WriteRes.accept 5),
                allocs := [true, true, true] }
    [Op.write_direct [0, 1, 2, 3, 4, 5, 6, 7, 8, 9], Op.write [10, 11], Op.write_ready]
    rfl rfl (by decide) (by decide) (by decide) (by decide) (by decide) 3

/-- C2, counterexample.  A payload of 10 bytes given to `write_direct` on an
Open stream with an empty queue; the descriptor accepts 4 bytes and then
reports would-block, and the append of the remainder fails.  The queue does
not hold the last 6 bytes (it stays empty) and the state is not unchanged (it
is Invalid, with an Error event). -/
theorem write_direct_remainder_needs_append :
    (reactor_stream_write_direct ignore
        { idle with state := State.OPEN,
                    writes := [WriteRes.accept 4, WriteRes.failed EAGAIN], allocs := [false] }
        [0, 1, 2, 3, 4, 5, 6, 7, 8, 9]).map (fun w => (w.output, w.state, w.events))
      = some ([], State.INVALID, [Event.ERROR])
    ∧ ¬ (∃ w', reactor_stream_write_direct ignore
          { idle with state := State.OPEN,
                      writes := [WriteRes.accept 4, WriteRes.failed EAGAIN], allocs := [false] }
          [0, 1, 2, 3, 4, 5, 6, 7, 8, 9] = some w'
        ∧ w'.output = [4, 5, 6, 7, 8, 9] ∧ w'.blocked = true ∧ w'.write_notify = true
        ∧ w'.state = State.OPEN) := by
  have h0 : (reactor_stream_write_direct ignore
        { idle with state := State.OPEN,
                    writes := [WriteRes.accept 4, WriteRes.failed EAGAIN], allocs := [false] }
        [0, 1, 2, 3, 4, 5, 6, 7, 8, 9]).map (fun w => (w.output, w.state, w.events))
      = some ([], State.INVALID, [Event.ERROR]) := by decide
  refine ⟨h0, ?_⟩
  rintro ⟨w', h, hout, _, _, _⟩
  rw [h] at h0
  simp [hout] at h0

/-- C2, amended.  A payload given to `write_direct` on an Open or Linger
stream whose output queue is empty; the descriptor accepts `ks.sum` bytes,
fewer than the payload holds, then reports would-block, and the append of the
remainder succeeds.  Afterwards the queue holds exactly the bytes of the
payload after the first `ks.sum`, `blocked` is set, write-readiness
notification is requested, and the state is unchanged. -/
theorem write_direct_queues_remainder (cb : Callback) (w : World) (base : List Byte)
    (ks : List Nat) (rest : List WriteRes) (arest : List Bool)
    (hstate : w.state = State.OPEN ∨ w.state = State.LINGER) (hout : w.output = [])
    (hw : w.writes = accepts ks ++ WriteRes.failed EAGAIN :: rest) (hk : ∀ k ∈ ks, 1 ≤ k)
    (hsum : ks.sum < base.length) (ha : w.allocs = true :: arest) :
    ∃ w', reactor_stream_write_direct cb w base = some w'
      ∧ w'.output = base.drop ks.sum
      ∧ w'.output.length = base.length - ks.sum
      ∧ w'.blocked = true
      ∧ w'.write_notify = true
      ∧ w'.state = w.state
      ∧ w'.events = w.events := by
  obtain ⟨w1, h1, h2, _⟩ := desc_write_stopped w base ks EAGAIN rest hw hk hsum
  have hst : ¬ (w.state ≠ State.OPEN ∧ w.state ≠ State.LINGER) := by
    rcases hstate with h | h <;> simp [h]
  have he : w1.errno = EAGAIN := by rw [h2]
  have ha1 : w1.allocs = true :: arest := by rw [h2]; exact ha
  have ho1 : w1.output = [] := by rw [h2]; exact hout
  refine ⟨{ w1 with allocs := arest, output := base.drop ks.sum }, ?_, rfl, by simp, ?_, ?_, ?_, ?_⟩
  · unfold reactor_stream_write_direct
    simp only [hst, if_false, hout, buffer_size, List.length_nil, ne_eq, not_true_eq_false, h1,
      hsum, if_true, he, reactor_stream_write, buffer_insert, ha1, ho1]
    simp
  · show w1.blocked = true
    rw [h2]
  · show w1.write_notify = true
    rw [h2]
  · show w1.state = w.state
    rw [h2]
  · show w1.events = w.events
    rw [h2]

/-- C2, witness: a payload of 10 bytes, the descriptor accepts 4, the queue holds the last 6. -/
theorem write_direct_queues_remainder_witness :
    ∃ w', reactor_stream_write_direct ignore
        { idle with state := State.OPEN,
                    writes := accepts [4] ++ WriteRes.failed EAGAIN :: [], allocs := true :: [] }
        [0, 1, 2, 3, 4, 5, 6, 7, 8, 9] = some w'
      ∧ w'.output = [4, 5, 6, 7, 8, 9]
      ∧ w'.output.length = 6
      ∧ w'.blocked = true
      ∧ w'.write_notify = true
      ∧ w'.state = State.OPEN
      ∧ w'.events = [] :=
  write_direct_queues_remainder ignore
    { idle with state := State.OPEN,
                writes := accepts [4] ++ WriteRes.failed EAGAIN :: [], allocs := true :: [] }
    [0, 1, 2, 3, 4, 5, 6, 7, 8, 9] [4] [] [] (Or.inl rfl) rfl rfl (by decide) (by decide) rfl

/-- C3.  An Open stream with queued output of a size a buffer can have, the
flag `blocked` set or not; a WRITE readiness event during which the descriptor
accepts all queued bytes, in the chunks `ks`.  The event returns, leaves the
output queue empty, `blocked` false and the state Open, leaves
write-readiness notification cancelled, and dispatches WriteAvailable once and
nothing else. -/
theorem write_ready_drains_queue (cb : Callback) (hcb : cb.passive) (w : World)
    (ks : List Nat) (tail : List WriteRes)
    (hstate : w.state = State.OPEN) (hsize : w.output.length < SIZE_MAX)
    (hw : w.writes = accepts ks ++ tail) (hk : ∀ k ∈ ks, 1 ≤ k)
    (hsum : ks.sum = w.output.length) :
    ∃ w', reactor_stream_event cb DescEvent.WRITE w = some w'
      ∧ w'.output = []
      ∧ w'.blocked = false
      ∧ w'.state = State.OPEN
      ∧ w'.write_notify = false
      ∧ w'.events = w.events ++ [Event.WRITE_AVAILABLE]
      ∧ accepted_bytes w'.calls = accepted_bytes w.calls ++ w.output := by
  obtain ⟨w1, h1, h2, h3⟩ := desc_write_all
    { w with blocked := false, current := Current.self } w.output ks tail hw hk hsum
  have hs1 : w1.state = State.OPEN := by rw [h2]; exact hstate
  have hc1 : w1.current = Current.self := by rw [h2]
  have hb1 : w1.blocked = false := by rw [h2]
  have hflush : reactor_stream_flush cb { w with blocked := false, current := Current.self }
      = some { w1 with output := [] } := by
    rw [flush_of_desc_write cb { w with blocked := false, current := Current.self } _ w1
      (Or.inl hstate) h1 hsize]
    have ho1 : w1.output = w.output := by rw [h2]
    simp [hs1, ho1]
  refine ⟨{ w1 with output := [], events := w1.events ++ [Event.WRITE_AVAILABLE] },
    ?_, rfl, hb1, hs1, ?_, ?_, h3⟩
  · simp only [reactor_stream_event, hflush, hc1, hs1, hb1, reactor_user_dispatch, hcb _ _]
    simp
  · show w1.write_notify = false
    rw [h2]
  · show w1.events ++ [Event.WRITE_AVAILABLE] = w.events ++ [Event.WRITE_AVAILABLE]
    rw [h2]

/-- C3, witness: 6 queued bytes on a blocked stream, the descriptor accepts 6. -/
theorem write_ready_drains_queue_witness :
    ∃ w', reactor_stream_event ignore DescEvent.WRITE
        { idle with state := State.OPEN, output := [4, 5, 6, 7, 8, 9], blocked := true,
                    write_notify := true, writes := accepts [6] ++ [] } = some w'
      ∧ w'.output = []
      ∧ w'.blocked = false
      ∧ w'.state = State.OPEN
      ∧ w'.write_notify = false
      ∧ w'.events = [] ++ [Event.WRITE_AVAILABLE]
      ∧ accepted_bytes w'.calls = accepted_bytes [] ++ [4, 5, 6, 7, 8, 9] :=
  write_ready_drains_queue ignore (fun _ _ => rfl)
    { idle with state := State.OPEN, output := [4, 5, 6, 7, 8, 9], blocked := true,
                write_notify := true, writes := accepts [6] ++ [] } [6] [] rfl (by decide) rfl
    (by decide) rfl

/-- C4, the code at a failing input.  An Open stream with three queued bytes;
the first descriptor write of a flush fails with a hard error (`errno = 5`,
not `EAGAIN`).  The flush returns with the state still Open and no event
dispatched: the stream is marked blocked as if the descriptor had reported
would-block.  The same failure met by `write_direct` on an empty queue does
move the stream to Invalid with an Error event. -/
theorem flush_hard_error_not_reported :
    reactor_stream_flush ignore
        { idle with state := State.OPEN, output := [1, 2, 3], writes := [WriteRes.failed 5] }
      = some { idle with state := State.OPEN, output := [1, 2, 3], blocked := true, errno := 5,
                         write_notify := true, events := [],
                         calls := [DescCall.write [1, 2, 3] (-1), DescCall.write_notify true] }
    ∧ (reactor_stream_write_direct ignore
        { idle with state := State.OPEN, writes := [WriteRes.failed 5] } [1, 2, 3]).map
        (fun w => (w.state, w.events)) = some (State.INVALID, [Event.ERROR]) := by
  constructor <;> decide

/-- C5.  Drain before close.
(1) A flush of a lingering stream requests the descriptor close exactly when
it leaves the output queue empty.
(2) `shutdown()` on an Open stream with output pending moves to Linger and
requests no close.
(3) No descriptor event, handled in any state, requests the close while it
leaves the output queue non-empty.
(4) A READ event whose read returns 0 on an Open stream with output pending
moves to Linger, turns read-readiness notification off, and requests no close
while it leaves the output queue non-empty.
(5) The flush of a lingering stream during which the descriptor accepts all
queued bytes returns, empties the queue and requests the close. -/
theorem drain_before_close (cb : Callback) (hcb : cb.passive) :
    (∀ w w', w.state = State.LINGER → reactor_stream_flush cb w = some w' →
      (w'.close_requests = w.close_requests + 1 ∧ w'.output = [])
      ∨ (w'.close_requests = w.close_requests ∧ w'.output ≠ []))
    ∧ (∀ w, w.state = State.OPEN → w.output ≠ [] →
      (reactor_stream_shutdown w).state = State.LINGER
      ∧ (reactor_stream_shutdown w).close_requests = w.close_requests
      ∧ (reactor_stream_shutdown w).output = w.output)
    ∧ (∀ w type w', reactor_stream_event cb type w = some w' →
      w'.output ≠ [] → w'.close_requests = w.close_requests)
    ∧ (∀ w rest w', w.state = State.OPEN → w.output ≠ [] → w.output.length < SIZE_MAX →
      w.reads = ReadRes.data [] :: rest → reactor_stream_event cb DescEvent.READ w = some w' →
      w'.state = State.LINGER ∧ w'.read_notify = false
      ∧ (w'.output ≠ [] → w'.close_requests = w.close_requests))
    ∧ (∀ w ks tail, w.state = State.LINGER → w.output.length < SIZE_MAX →
      w.writes = accepts ks ++ tail → (∀ k ∈ ks, 1 ≤ k) → ks.sum = w.output.length →
      ∃ w', reactor_stream_flush cb w = some w' ∧ w'.output = []
        ∧ w'.close_requests = w.close_requests + 1 ∧ w'.state = State.LINGER) := by
  refine ⟨fun w w' hst h => flush_linger_close_iff cb hcb w w' h hst, ?_, ?_, ?_, ?_⟩
  · intro w hst hout
    have hlen : w.output.length ≠ 0 := by simpa using hout
    simp [reactor_stream_shutdown, hst, buffer_size, hlen, reactor_desc_read_notify]
  · intro w type w' h hout
    cases type with
    | ERROR =>
      simp only [reactor_stream_event, error_spec cb hcb, Option.some.injEq] at h
      rw [← h]
    | READ =>
      simp only [reactor_stream_event] at h
      by_cases hst : w.state ≠ State.OPEN
      · rw [if_pos hst] at h
        simp only [Option.some.injEq] at h
        rw [← h]
      · rw [if_neg hst] at h
        cases hrd : reactor_stream_read cb { w with current := Current.self } with
        | none => simp [hrd] at h
        | some w1 =>
          obtain ⟨ho1, hc1⟩ := read_close_only_when_drained cb hcb
            { w with current := Current.self } w1 hrd (by simpa using hst)
          simp only [hrd] at h
          split at h
          · obtain ⟨hf1, hf2⟩ := flush_close_only_when_drained cb hcb w1 w' h
            rw [hf1 hout]
            exact hc1 (fun he => hout (hf2 he))
          · simp only [Option.some.injEq] at h
            rw [← h] at hout ⊢
            exact hc1 hout
    | WRITE =>
      simp only [reactor_stream_event] at h
      cases hf : reactor_stream_flush cb { w with blocked := false, current := Current.self } with
      | none => simp [hf] at h
      | some w1 =>
        obtain ⟨hf1, _⟩ := flush_close_only_when_drained cb hcb
          { w with blocked := false, current := Current.self } w1 hf
        simp only [hf, reactor_user_dispatch, hcb _ _] at h
        have hw' : w'.output = w1.output ∧ w'.close_requests = w1.close_requests := by
          split at h <;> (simp only [Option.some.injEq] at h; rw [← h]; simp)
        rw [hw'.1] at hout
        rw [hw'.2]
        exact hf1 hout
    | SHUTDOWN =>
      simp only [reactor_stream_event, reactor_user_dispatch, hcb _ _, Option.some.injEq] at h
      rw [← h]
    | CLOSE =>
      simp only [reactor_stream_event, reactor_stream_close_final, reactor_user_dispatch, hcb _ _,
        Option.some.injEq, buffer_clear] at h
      rw [← h] at hout
      simp at hout
  · intro w rest w' hst hout hsize hr h
    have hlen : w.output.length ≠ 0 := by simpa using hout
    obtain ⟨w1, hread, hs1, hb1, hc1, ho1, hcl1, hrn1⟩ : ∃ w1,
        reactor_stream_read cb { w with current := Current.self } = some w1
        ∧ w1.state = State.LINGER ∧ w1.blocked = w.blocked ∧ w1.current = Current.self
        ∧ w1.output = w.output ∧ w1.close_requests = w.close_requests
        ∧ w1.read_notify = false := by
      refine ⟨reactor_desc_read_notify
        { w with current := Current.self, state := State.LINGER, reads := rest,
                 calls := w.calls ++ [DescCall.read 0] } false, ?_, rfl, rfl, rfl, rfl, rfl, rfl⟩
      simp [reactor_stream_read, reactor_desc_read, hr, reactor_stream_shutdown, hst, buffer_size,
        hlen, reactor_desc_read_notify]
    have hg : ¬ (w.state ≠ State.OPEN) := by simp [hst]
    simp only [reactor_stream_event] at h
    rw [if_neg hg, hread] at h
    simp only [] at h
    by_cases hb : w.blocked = false
    · rw [if_pos ⟨by simp [hc1], by rw [hb1]; exact hb⟩] at h
      obtain ⟨hs', hn'⟩ := flush_linger_frame cb w1 w' h hs1 (by rw [ho1]; exact hsize)
      refine ⟨hs', by rw [hn', hrn1], fun ho => ?_⟩
      rcases flush_linger_close_iff cb hcb w1 w' h hs1 with ⟨_, h0⟩ | ⟨hc, _⟩
      · exact absurd h0 ho
      · rw [hc, hcl1]
    · rw [if_neg (fun hc => hb (by rw [← hb1]; exact hc.2))] at h
      simp only [Option.some.injEq] at h
      rw [← h]
      exact ⟨hs1, hrn1, fun _ => hcl1⟩
  · intro w ks tail hst hsize hw hk hsum
    obtain ⟨w1, h1, h2, _⟩ := desc_write_all w w.output ks tail hw hk hsum
    have hs1 : w1.state = State.LINGER := by rw [h2]; exact hst
    have ho1 : w1.output = w.output := by rw [h2]
    have hc1 : w1.close_requests = w.close_requests := by rw [h2]
    refine ⟨_, flush_of_desc_write cb w _ w1 (Or.inr hst) h1 hsize, ?_, ?_, ?_⟩
    · simp [hs1, ho1, reactor_stream_close, reactor_desc_close]
    · simp [hs1, ho1, reactor_stream_close, reactor_desc_close, hc1]
    · simp [hs1, ho1, reactor_stream_close, reactor_desc_close]

/-- C5, witness: 3 bytes queued on a blocked stream, the peer closes (the read
returns 0), then the 3 bytes flush and the close is requested. -/
theorem drain_before_close_witness :
    (({ idle with state := State.LINGER, output := [7, 8, 9], blocked := true,
                  current := Current.self, writes := [WriteRes.accept 3],
                  calls := [DescCall.read 0, DescCall.read_notify false] } : World).state
        = State.LINGER
      ∧ ({ idle with state := State.LINGER, output := [7, 8, 9], blocked := true,
                     current := Current.self, writes := [WriteRes.accept 3],
                     calls := [DescCall.read 0, DescCall.read_notify false] } : World).read_notify
        = false
      ∧ (({ idle with state := State.LINGER, output := [7, 8, 9], blocked := true,
                      current := Current.self, writes := [WriteRes.accept 3],
                      calls := [DescCall.read 0, DescCall.read_notify false] } : World).output ≠ []
        → ({ idle with state := State.LINGER, output := [7, 8, 9], blocked := true,
                       current := Current.self, writes := [WriteRes.accept 3],
                       calls := [DescCall.read 0, DescCall.read_notify false] } : World).close_requests
          = 0))
    ∧ (∃ w', reactor_stream_flush ignore
          { idle with state := State.LINGER, output := [7, 8, 9], blocked := true,
                      current := Current.self, writes := [WriteRes.accept 3],
                      calls := [DescCall.read 0, DescCall.read_notify false] } = some w'
        ∧ w'.output = [] ∧ w'.close_requests = 0 + 1 ∧ w'.state = State.LINGER) :=
  ⟨(drain_before_close ignore (fun _ _ => rfl)).2.2.2.1
      { idle with state := State.OPEN, output := [7, 8, 9], blocked := true,
                  reads := [ReadRes.data []], writes := [WriteRes.accept 3] }
      []
      { idle with state := State.LINGER, output := [7, 8, 9], blocked := true,
                  current := Current.self, writes := [WriteRes.accept 3],
                  calls := [DescCall.read 0, DescCall.read_notify false] }
      rfl (by decide) (by decide) rfl (by decide),
   (drain_before_close ignore (fun _ _ => rfl)).2.2.2.2
      { idle with state := State.LINGER, output := [7, 8, 9], blocked := true,
                  current := Current.self, writes := [WriteRes.accept 3],
                  calls := [DescCall.read 0, DescCall.read_notify false] }
      [3] [] rfl (by decide) rfl (by decide) rfl⟩

/-- C6.  `shutdown()`.  Open with output pending: the state becomes Linger,
read-readiness notification is turned off, no close is requested, the output
queue is unchanged.  Open with an empty output queue, or Invalid: the close is
requested and the state is unchanged.  Closed or Linger: nothing happens. -/
theorem shutdown_by_state (w : World) :
    (w.state = State.OPEN → w.output ≠ [] →
      (reactor_stream_shutdown w).state = State.LINGER
      ∧ (reactor_stream_shutdown w).read_notify = false
      ∧ (reactor_stream_shutdown w).calls = w.calls ++ [DescCall.read_notify false]
      ∧ (reactor_stream_shutdown w).close_requests = w.close_requests
      ∧ (reactor_stream_shutdown w).output = w.output)
    ∧ ((w.state = State.OPEN ∧ w.output = []) ∨ w.state = State.INVALID →
      (reactor_stream_shutdown w).close_requests = w.close_requests + 1
      ∧ (reactor_stream_shutdown w).calls = w.calls ++ [DescCall.close]
      ∧ (reactor_stream_shutdown w).state = w.state)
    ∧ (w.state = State.CLOSED ∨ w.state = State.LINGER → reactor_stream_shutdown w = w) := by
  refine ⟨?_, ?_, ?_⟩
  · intro hst hout
    have hlen : w.output.length ≠ 0 := by simpa using hout
    simp [reactor_stream_shutdown, hst, buffer_size, hlen, reactor_desc_read_notify]
  · rintro (⟨hst, hout⟩ | hst)
    · simp [reactor_stream_shutdown, hst, buffer_size, hout, reactor_stream_close,
        reactor_desc_close]
    · simp [reactor_stream_shutdown, hst, reactor_stream_close, reactor_desc_close]
  · rintro (hst | hst) <;> simp [reactor_stream_shutdown, hst]

/-- C6, witness: an Open stream with three bytes pending, an Invalid stream, a lingering stream. -/
theorem shutdown_by_state_witness :
    ((reactor_stream_shutdown { idle with state := State.OPEN, output := [1, 2, 3] }).state
        = State.LINGER
      ∧ (reactor_stream_shutdown { idle with state := State.OPEN, output := [1, 2, 3] }).read_notify
        = false
      ∧ (reactor_stream_shutdown { idle with state := State.OPEN, output := [1, 2, 3] }).calls
        = [] ++ [DescCall.read_notify false]
      ∧ (reactor_stream_shutdown { idle with state := State.OPEN, output := [1, 2, 3] }).close_requests
        = 0
      ∧ (reactor_stream_shutdown { idle with state := State.OPEN, output := [1, 2, 3] }).output
        = [1, 2, 3])
    ∧ ((reactor_stream_shutdown { idle with state := State.INVALID }).close_requests = 0 + 1
      ∧ (reactor_stream_shutdown { idle with state := State.INVALID }).calls = [] ++ [DescCall.close]
      ∧ (reactor_stream_shutdown { idle with state := State.INVALID }).state = State.INVALID)
    ∧ reactor_stream_shutdown { idle with state := State.LINGER, output := [1] }
        = { idle with state := State.LINGER, output := [1] } :=
  ⟨(shutdown_by_state { idle with state := State.OPEN, output := [1, 2, 3] }).1 rfl (by decide),
   (shutdown_by_state { idle with state := State.INVALID }).2.1 (Or.inr rfl),
   (shutdown_by_state { idle with state := State.LINGER, output := [1] }).2.2 (Or.inr rfl)⟩

/-- C7.  `open(handle)`.  On a stream that is not Closed the new handle is
closed and never bound to the descriptor (the descriptor receives no call),
the state becomes Invalid, one Error event is dispatched, and the output
queue, the input queue and the flag `blocked` are unchanged.  On a Closed
stream the state becomes Open, the handle is bound, and no event is
dispatched. -/
theorem open_rejects_or_binds (cb : Callback) (hcb : cb.passive) (w : World) (fd : Nat) :
    (w.state ≠ State.CLOSED →
      (reactor_stream_open cb w fd).closed_handles = w.closed_handles ++ [fd]
      ∧ (reactor_stream_open cb w fd).fd = w.fd
      ∧ (reactor_stream_open cb w fd).calls = w.calls
      ∧ (reactor_stream_open cb w fd).state = State.INVALID
      ∧ (reactor_stream_open cb w fd).events = w.events ++ [Event.ERROR]
      ∧ (reactor_stream_open cb w fd).output = w.output
      ∧ (reactor_stream_open cb w fd).input = w.input
      ∧ (reactor_stream_open cb w fd).blocked = w.blocked)
    ∧ (w.state = State.CLOSED →
      (reactor_stream_open cb w fd).state = State.OPEN
      ∧ (reactor_stream_open cb w fd).fd = some fd
      ∧ (reactor_stream_open cb w fd).calls = w.calls ++ [DescCall.opened fd]
      ∧ (reactor_stream_open cb w fd).closed_handles = w.closed_handles
      ∧ (reactor_stream_open cb w fd).events = w.events) := by
  constructor
  · intro hst
    simp [reactor_stream_open, hst, error_spec cb hcb]
  · intro hst
    simp [reactor_stream_open, hst, reactor_desc_open]

/-- C7, witness: handle 4 offered to a stream open on handle 3, and to a Closed stream. -/
theorem open_rejects_or_binds_witness :
    ((reactor_stream_open ignore { idle with state := State.OPEN, fd := some 3, output := [1, 2] } 4).closed_handles
        = [] ++ [4]
      ∧ (reactor_stream_open ignore { idle with state := State.OPEN, fd := some 3, output := [1, 2] } 4).fd
        = some 3
      ∧ (reactor_stream_open ignore { idle with state := State.OPEN, fd := some 3, output := [1, 2] } 4).calls
        = []
      ∧ (reactor_stream_open ignore { idle with state := State.OPEN, fd := some 3, output := [1, 2] } 4).state
        = State.INVALID
      ∧ (reactor_stream_open ignore { idle with state := State.OPEN, fd := some 3, output := [1, 2] } 4).events
        = [] ++ [Event.ERROR]
      ∧ (reactor_stream_open ignore { idle with state := State.OPEN, fd := some 3, output := [1, 2] } 4).output
        = [1, 2]
      ∧ (reactor_stream_open ignore { idle with state := State.OPEN, fd := some 3, output := [1, 2] } 4).input
        = []
      ∧ (reactor_stream_open ignore { idle with state := State.OPEN, fd := some 3, output := [1, 2] } 4).blocked
        = false)
    ∧ ((reactor_stream_open ignore idle 4).state = State.OPEN
      ∧ (reactor_stream_open ignore idle 4).fd = some 4
      ∧ (reactor_stream_open ignore idle 4).calls = [] ++ [DescCall.opened 4]
      ∧ (reactor_stream_open ignore idle 4).closed_handles = []
      ∧ (reactor_stream_open ignore idle 4).events = []) :=
  ⟨(open_rejects_or_binds ignore (fun _ _ => rfl)
      { idle with state := State.OPEN, fd := some 3, output := [1, 2] } 4).1 (by decide),
   (open_rejects_or_binds ignore (fun _ _ => rfl) idle 4).2 rfl⟩

/-- C8, the code at a failing input.  A stream is initialised and opened, three
bytes are queued, and a WRITE readiness event finds the descriptor reporting
would-block: `blocked` is set.  Finalization then empties both queues and sets
the state to Closed but leaves `blocked` set, whereas a freshly initialised
stream has it clear; so `open` after finalization yields a stream with
`blocked` set and `open` on a fresh stream one with `blocked` clear.  The two
behave differently: with one byte queued, a READ event whose read fails with
would-block flushes the queue of the fresh stream and not that of the
reopened one. -/
theorem finalize_keeps_blocked :
    ∃ w1 w2,
      reactor_stream_write ignore
        (reactor_stream_open ignore
          (reactor_stream_init { idle with allocs := [true], writes := [WriteRes.failed EAGAIN] }) 3)
        [1, 2, 3] = some w1
      ∧ reactor_stream_event ignore DescEvent.WRITE w1 = some w2
      ∧ w2.state = State.OPEN ∧ w2.output = [1, 2, 3] ∧ w2.blocked = true
      ∧ (reactor_stream_close_final ignore w2).state = State.CLOSED
      ∧ (reactor_stream_close_final ignore w2).input = []
      ∧ (reactor_stream_close_final ignore w2).output = []
      ∧ (reactor_stream_close_final ignore w2).blocked = true
      ∧ (reactor_stream_init w2).blocked = false
      ∧ (reactor_stream_open ignore (reactor_stream_close_final ignore w2) 4).blocked = true
      ∧ (reactor_stream_open ignore (reactor_stream_init w2) 4).blocked = false
      ∧ (reactor_stream_event ignore DescEvent.READ
          { reactor_stream_open ignore (reactor_stream_close_final ignore w2) 4 with
            output := [9], reads := [ReadRes.failed EAGAIN], writes := [WriteRes.accept 1] }).map
          (fun w => w.output) = some [9]
      ∧ (reactor_stream_event ignore DescEvent.READ
          { reactor_stream_open ignore (reactor_stream_init w2) 4 with
            output := [9], reads := [ReadRes.failed EAGAIN], writes := [WriteRes.accept 1] }).map
          (fun w => w.output) = some [] :=
  ⟨_, _, rfl, rfl, rfl, rfl, rfl, rfl, rfl, rfl, rfl, rfl, rfl, rfl, rfl, rfl⟩

/-- C9.  Finalize.  The descriptor CLOSE event runs `reactor_stream_close_final`,
which in every state empties the input queue and the output queue, sets the
state to Closed, clears the marker `current` when it designates this stream
(and leaves it alone otherwise), and dispatches one Close event.  Finalizing a
second time changes nothing in the stream: it only dispatches another Close
event. -/
theorem finalize_resets_and_is_idempotent (cb : Callback) (hcb : cb.passive) (w : World) :
    reactor_stream_event cb DescEvent.CLOSE w = some (reactor_stream_close_final cb w)
    ∧ (reactor_stream_close_final cb w).input = []
    ∧ (reactor_stream_close_final cb w).output = []
    ∧ (reactor_stream_close_final cb w).state = State.CLOSED
    ∧ (w.current = Current.self → (reactor_stream_close_final cb w).current = Current.null)
    ∧ (w.current ≠ Current.self → (reactor_stream_close_final cb w).current = w.current)
    ∧ (reactor_stream_close_final cb w).events = w.events ++ [Event.CLOSE]
    ∧ (reactor_stream_close_final cb w).close_requests = w.close_requests
    ∧ reactor_stream_close_final cb (reactor_stream_close_final cb w)
        = { reactor_stream_close_final cb w with
            events := (reactor_stream_close_final cb w).events ++ [Event.CLOSE] } := by
  have hfin : ∀ v : World, reactor_stream_close_final cb v
      = { v with current := if v.current = Current.self then Current.null else v.current,
                 input := [], output := [], state := State.CLOSED,
                 events := v.events ++ [Event.CLOSE] } := by
    intro v
    by_cases hc : v.current = Current.self <;>
      simp [reactor_stream_close_final, reactor_user_dispatch, hcb _ _, buffer_clear, hc]
  refine ⟨rfl, ?_, ?_, ?_, ?_, ?_, ?_, ?_, ?_⟩
  · rw [hfin]
  · rw [hfin]
  · rw [hfin]
  · intro hc; rw [hfin]; simp [hc]
  · intro hc; rw [hfin]; simp [hc]
  · rw [hfin]
  · rw [hfin]
  · rw [hfin (reactor_stream_close_final cb w), hfin w]
    by_cases hc : w.current = Current.self <;> simp [hc]

/-- C9, witness: a lingering, blocked stream with data in both queues, designated by `current`. -/
theorem finalize_resets_and_is_idempotent_witness :
    reactor_stream_event ignore DescEvent.CLOSE
        { idle with state := State.LINGER, blocked := true, input := [1], output := [2, 3],
                    current := Current.self }
      = some (reactor_stream_close_final ignore
          { idle with state := State.LINGER, blocked := true, input := [1], output := [2, 3],
                      current := Current.self })
    ∧ (reactor_stream_close_final ignore
          { idle with state := State.LINGER, blocked := true, input := [1], output := [2, 3],
                      current := Current.self }).state = State.CLOSED
    ∧ (reactor_stream_close_final ignore
          { idle with state := State.LINGER, blocked := true, input := [1], output := [2, 3],
                      current := Current.self }).events = [] ++ [Event.CLOSE] :=
  ⟨(finalize_resets_and_is_idempotent ignore (fun _ _ => rfl)
      { idle with state := State.LINGER, blocked := true, input := [1], output := [2, 3],
                  current := Current.self }).1,
   (finalize_resets_and_is_idempotent ignore (fun _ _ => rfl)
      { idle with state := State.LINGER, blocked := true, input := [1], output := [2, 3],
                  current := Current.self }).2.2.2.1,
   (finalize_resets_and_is_idempotent ignore (fun _ _ => rfl)
      { idle with state := State.LINGER, blocked := true, input := [1], output := [2, 3],
                  current := Current.self }).2.2.2.2.2.2.1⟩

/-- C10.  `error()`, and the descriptor ERROR event, which runs it.  In every
state the state becomes Invalid and one Error event is dispatched; the
descriptor close is not requested (the descriptor receives no call), and the
input queue, the output queue and the flag `blocked` are unchanged. -/
theorem error_only_invalidates (cb : Callback) (hcb : cb.passive) (w : World) :
    reactor_stream_event cb DescEvent.ERROR w = some (reactor_stream_error cb w)
    ∧ (reactor_stream_error cb w).state = State.INVALID
    ∧ (reactor_stream_error cb w).events = w.events ++ [Event.ERROR]
    ∧ (reactor_stream_error cb w).close_requests = w.close_requests
    ∧ (reactor_stream_error cb w).calls = w.calls
    ∧ (reactor_stream_error cb w).input = w.input
    ∧ (reactor_stream_error cb w).output = w.output
    ∧ (reactor_stream_error cb w).blocked = w.blocked := by
  refine ⟨rfl, ?_⟩
  rw [error_spec cb hcb]
  simp

/-- C10, witness: an Open, blocked stream with data in both queues. -/
theorem error_only_invalidates_witness :
    reactor_stream_event ignore DescEvent.ERROR
        { idle with state := State.OPEN, blocked := true, input := [1], output := [2, 3] }
      = some (reactor_stream_error ignore
          { idle with state := State.OPEN, blocked := true, input := [1], output := [2, 3] })
    ∧ (reactor_stream_error ignore
        { idle with state := State.OPEN, blocked := true, input := [1], output := [2, 3] }).state
      = State.INVALID
    ∧ (reactor_stream_error ignore
        { idle with state := State.OPEN, blocked := true, input := [1], output := [2, 3] }).events
      = [] ++ [Event.ERROR]
    ∧ (reactor_stream_error ignore
        { idle with state := State.OPEN, blocked := true, input := [1], output := [2, 3] }).close_requests
      = 0
    ∧ (reactor_stream_error ignore
        { idle with state := State.OPEN, blocked := true, input := [1], output := [2, 3] }).calls
      = []
    ∧ (reactor_stream_error ignore
        { idle with state := State.OPEN, blocked := true, input := [1], output := [2, 3] }).input
      = [1]
    ∧ (reactor_stream_error ignore
        { idle with state := State.OPEN, blocked := true, input := [1], output := [2, 3] }).output
      = [2, 3]
    ∧ (reactor_stream_error ignore
        { idle with state := State.OPEN, blocked := true, input := [1], output := [2, 3] }).blocked
      = true :=
  error_only_invalidates ignore (fun _ _ => rfl)
    { idle with state := State.OPEN, blocked := true, input := [1], output := [2, 3] }

/-! ## Lemmas: the calls of the write loop -/

/-- With a descriptor whose every write fails or accepts at least one byte,
and enough scripted answers, the loop returns; the calls it makes are writes
that offer the bytes in order, and it uses at most one answer per byte
accepted, and one more. -/
theorem desc_write_loop_calls (data : List Byte) :
    ∀ (fuel i : Nat) (w : World), w.writes.length < fuel →
      (∀ r ∈ w.writes, r.fails_or_progresses = true) → data.length - i ≤ w.writes.length →
      ∃ n w' cs, desc_write_loop data fuel i w = some (n, w')
        ∧ w'.calls = w.calls ++ cs
        ∧ offered_in_order data i cs = true
        ∧ (i < data.length → cs ≠ [])
        ∧ w.writes.length ≤ w'.writes.length + (n - i) + 1 := by
  intro fuel
  induction fuel with
  | zero => intro i w h; omega
  | succ fuel ih =>
    intro i w hf hp hlen
    rw [desc_write_loop]
    by_cases hlt : i < data.length
    · simp only [hlt, if_true]
      cases hw : w.writes with
      | nil => rw [hw] at hlen; simp at hlen; omega
      | cons r rest =>
        rw [hw] at hf hlen hp
        simp only [List.length_cons] at hf hlen
        cases r with
        | accept k =>
          have hk : 1 ≤ k := by
            have := hp (WriteRes.accept k) (by simp)
            simpa [WriteRes.fails_or_progresses] using this
          simp only [reactor_desc_write, hw]
          have hne : ((min k (data.drop i).length : Nat) : Int) ≠ -1 := by omega
          simp only [hne, if_false, Int.toNat_ofNat, List.length_drop]
          obtain ⟨n, w', cs, h1, h2, h3, _, h5⟩ := ih (i + min k (data.length - i))
            { w with writes := rest,
                     calls := w.calls ++ [DescCall.write (data.drop i)
                       ((min k (data.length - i) : Nat) : Int)] }
            (by simp; omega) (fun r hr => hp r (by simp [hr])) (by simp; omega)
          obtain ⟨_, hin, _⟩ := desc_write_loop_spec data _ _ _ _ _ h1 (by omega)
          refine ⟨n, w', DescCall.write (data.drop i) ((min k (data.length - i) : Nat) : Int)
            :: cs, h1, ?_, ?_, fun _ => by simp, ?_⟩
          · rw [h2]; simp
          · simp only [offered_in_order, Int.toNat_ofNat, decide_True, Bool.true_and]
            exact h3
          · simp only [List.length_cons] at h5 ⊢
            omega
        | failed e =>
          refine ⟨i, { w with writes := rest, errno := e, blocked := true,
                              calls := w.calls ++ [DescCall.write (data.drop i) (-1)] },
            [DescCall.write (data.drop i) (-1)], by simp [reactor_desc_write, hw],
            rfl, by simp [offered_in_order], fun _ => by simp, by simp⟩
    · exact ⟨i, w, [], by simp [hlt], by simp, by simp [offered_in_order],
        fun h => absurd h hlt, by omega⟩

/-- With a descriptor whose every write fails or accepts at least one byte,
and enough scripted answers, `reactor_stream_desc_write` returns a count `i`
of at most the size; its calls are writes that offer the bytes in order,
followed by one write-notification request. -/
theorem desc_write_calls (w : World) (data : List Byte)
    (hp : ∀ r ∈ w.writes, r.fails_or_progresses = true) (hlen : data.length ≤ w.writes.length) :
    ∃ i w' cs, reactor_stream_desc_write w data = some (i, w')
      ∧ i ≤ data.length
      ∧ w'.calls = w.calls ++ cs ++ [DescCall.write_notify (i != data.length)]
      ∧ offered_in_order data 0 cs = true
      ∧ (data ≠ [] → cs ≠ [])
      ∧ accepted_bytes cs = data.take i
      ∧ w.writes.length ≤ w'.writes.length + i + 1 := by
  obtain ⟨n, w1, cs, h1, h2, h3, h4, h5⟩ := desc_write_loop_calls data (w.writes.length + 1) 0 w
    (Nat.lt_succ_self _) hp (by omega)
  obtain ⟨_, _, hle, hacc, _⟩ := desc_write_loop_spec data _ _ _ _ _ h1 (Nat.zero_le _)
  refine ⟨n, reactor_desc_write_notify w1 (n != data.length), cs, ?_, hle, ?_, h3, ?_, ?_, ?_⟩
  · simp [reactor_stream_desc_write, h1]
  · simp [reactor_desc_write_notify, h2]
  · intro hd
    apply h4
    cases data with
    | nil => exact absurd rfl hd
    | cons a l => simp
  · rw [h2, accepted_bytes_append] at hacc
    simpa using hacc
  · simpa [reactor_desc_write_notify] using h5

/-- How the loop stops, and what each call returned.  The calls take the
answers of the script in order.  The loop returns the full size only after
writes that all accepted between one byte and what they offered; it returns
less only because the last write, which offered everything from the first
byte not accepted, failed, and then `blocked` is set. -/
theorem desc_write_loop_trace (data : List Byte) :
    ∀ (fuel i : Nat) (w : World) (n : Nat) (w' : World),
      desc_write_loop data fuel i w = some (n, w') → i ≤ data.length →
      (∀ r ∈ w.writes, r.fails_or_progresses = true) →
      ∃ cs, w'.calls = w.calls ++ cs
        ∧ w'.writes = w.writes.drop cs.length
        ∧ answers_script w.writes cs = true
        ∧ ((n = data.length ∧ w'.blocked = w.blocked
              ∧ ∀ c ∈ cs, ∃ o m, c = DescCall.write o m ∧ 1 ≤ m ∧ m ≤ (o.length : Int))
            ∨ (n < data.length ∧ w'.blocked = true
              ∧ ∃ cs0, cs = cs0 ++ [DescCall.write (data.drop n) (-1)]
                ∧ ∀ c ∈ cs0, ∃ o m, c = DescCall.write o m ∧ 1 ≤ m ∧ m ≤ (o.length : Int))) := by
  intro fuel
  induction fuel with
  | zero => intro i w n w' h; simp [desc_write_loop] at h
  | succ fuel ih =>
    intro i w n w' h hi hp
    rw [desc_write_loop] at h
    by_cases hlt : i < data.length
    · simp only [hlt, if_true] at h
      cases hw : w.writes with
      | nil => simp [reactor_desc_write, hw] at h
      | cons r rest =>
        rw [hw] at hp
        cases r with
        | accept k =>
          have hk : 1 ≤ k := by
            have := hp (WriteRes.accept k) (by simp)
            simpa [WriteRes.fails_or_progresses] using this
          simp only [reactor_desc_write, hw] at h
          have hne : ((min k (data.drop i).length : Nat) : Int) ≠ -1 := by omega
          simp only [hne, if_false, Int.toNat_ofNat] at h
          obtain ⟨cs, h1, h2, h3, h4⟩ := ih _ _ _ _ h
            (by simp only [List.length_drop]; omega) (fun r hr => hp r (by simp [hr]))
          dsimp only at h1 h2 h3 h4
          have hc0 : ∃ o m, DescCall.write (data.drop i)
              ((min k (data.drop i).length : Nat) : Int) = DescCall.write o m
              ∧ 1 ≤ m ∧ m ≤ (o.length : Int) := by
            refine ⟨_, _, rfl, ?_, ?_⟩
            · simp only [List.length_drop]; omega
            · simp only [List.length_drop]; omega
          refine ⟨DescCall.write (data.drop i) ((min k (data.drop i).length : Nat) : Int) :: cs,
            ?_, ?_, ?_, ?_⟩
          · rw [h1]; simp
          · rw [h2]; simp
          · simp only [answers_script, decide_True, Bool.true_and]
            exact h3
          · rcases h4 with ⟨hn, hb, hall⟩ | ⟨hn, hb, cs0, hcs, hall⟩
            · left
              refine ⟨hn, hb, ?_⟩
              intro c hc
              rcases List.mem_cons.mp hc with rfl | hc
              · exact hc0
              · exact hall c hc
            · right
              refine ⟨hn, hb, DescCall.write (data.drop i)
                ((min k (data.drop i).length : Nat) : Int) :: cs0, by rw [hcs]; simp, ?_⟩
              intro c hc
              rcases List.mem_cons.mp hc with rfl | hc
              · exact hc0
              · exact hall c hc
        | failed e =>
          simp only [reactor_desc_write, hw] at h
          simp only [if_true, Option.some.injEq, Prod.mk.injEq] at h
          obtain ⟨rfl, rfl⟩ := h
          refine ⟨[DescCall.write (data.drop i) (-1)], by simp, by simp [hw],
            by simp [answers_script], ?_⟩
          right
          exact ⟨hlt, rfl, [], by simp, by simp⟩
    · simp only [hlt, if_false, Option.some.injEq, Prod.mk.injEq] at h
      obtain ⟨rfl, rfl⟩ := h
      refine ⟨[], by simp, by simp, by simp [answers_script], ?_⟩
      left
      exact ⟨by omega, rfl, by simp⟩

/-! ## Lemmas: the read cycle -/

/-- The read cycle when the descriptor read returns the bytes `bs`, at least
one: the callback receives the `READ` event with the view `bs`; afterwards, if
the marker is still set and the view left is not empty, the view left is
inserted at the end of the input queue. -/
theorem read_cycle_data (cb : Callback) (w : World) (bs : List Byte) (rest : List ReadRes)
    (hr : w.reads = ReadRes.data bs :: rest) (hbs : bs ≠ []) :
    reactor_stream_read cb w
      = if (cb (Event.READ bs) (read_dispatched w bs rest)).1.current ≠ Current.null
            ∧ (cb (Event.READ bs) (read_dispatched w bs rest)).2.length ≠ 0 then
          match buffer_insert (cb (Event.READ bs) (read_dispatched w bs rest)).1
              (cb (Event.READ bs) (read_dispatched w bs rest)).1.input
              (buffer_size (cb (Event.READ bs) (read_dispatched w bs rest)).1.input)
              (cb (Event.READ bs) (read_dispatched w bs rest)).2 with
          | none => none
          | some (_, b, w2) => some { w2 with input := b }
        else some (cb (Event.READ bs) (read_dispatched w bs rest)).1 := by
  have hlen : bs.length ≠ 0 := by simpa using hbs
  have h1 : ¬ (((bs.length : Nat) : Int) = -1 ∧ w.errno ≠ EAGAIN) := by
    intro hc; omega
  have h2 : ¬ (((bs.length : Nat) : Int) = 0) := by omega
  have h3 : ((bs.length : Nat) : Int) > 0 := by omega
  unfold reactor_stream_read
  simp only [reactor_desc_read, hr]
  rw [if_neg h1, if_neg h2, if_pos h3]
  rfl

/-- The read cycle with a callback that leaves the stream alone, when the
descriptor read returns bytes and every allocation succeeds: the view left by
the callback ends up behind the previous contents of the input queue. -/
theorem read_cycle_passive (cb : Callback) (hcb : cb.passive) (w : World) (bs : List Byte)
    (rest : List ReadRes) (hr : w.reads = ReadRes.data bs :: rest) (hbs : bs ≠ [])
    (ha : ∀ b ∈ w.allocs, b = true) (hal : 1 ≤ w.allocs.length) :
    ∃ w1, reactor_stream_read cb w = some w1
      ∧ w1 = { read_dispatched w bs rest with
                 input := w.input ++ (cb (Event.READ bs) (read_dispatched w bs rest)).2,
                 allocs := w1.allocs }
      ∧ (∀ b ∈ w1.allocs, b ∈ w.allocs) ∧ w.allocs.length ≤ w1.allocs.length + 1 := by
  have hcyc := read_cycle_data cb w bs rest hr hbs
  rw [hcb] at hcyc
  by_cases hrem : (cb (Event.READ bs) (read_dispatched w bs rest)).2 = []
  · have hc : ¬ ((read_dispatched w bs rest).current ≠ Current.null
        ∧ (cb (Event.READ bs) (read_dispatched w bs rest)).2.length ≠ 0) := by
      simp [hrem]
    rw [if_neg hc] at hcyc
    refine ⟨_, hcyc, ?_, fun b hb => hb, by simp [read_dispatched]⟩
    rw [hrem]
    simp [read_dispatched]
  · have hc : (read_dispatched w bs rest).current ≠ Current.null
        ∧ (cb (Event.READ bs) (read_dispatched w bs rest)).2.length ≠ 0 := by
      refine ⟨by simp [read_dispatched], ?_⟩
      simpa using hrem
    rw [if_pos hc] at hcyc
    cases hA : w.allocs with
    | nil => rw [hA] at hal; simp at hal
    | cons a arest =>
      have hat : a = true := ha a (by simp [hA])
      subst hat
      have hins : buffer_insert (read_dispatched w bs rest) (read_dispatched w bs rest).input
          (buffer_size (read_dispatched w bs rest).input)
          (cb (Event.READ bs) (read_dispatched w bs rest)).2
          = some (0, w.input ++ (cb (Event.READ bs) (read_dispatched w bs rest)).2,
              { read_dispatched w bs rest with allocs := arest }) := by
        simp [buffer_insert, read_dispatched, hA, buffer_size]
      rw [hins] at hcyc
      refine ⟨_, hcyc, rfl, ?_, ?_⟩
      · intro b hb
        exact List.mem_cons_of_mem _ hb
      · simp

/-- A READ event on an Open stream with a callback that leaves the stream
alone, when the descriptor read returns bytes, every allocation succeeds, and
the descriptor answers the writes of the flush that follows: the event
returns, the stream stays Open, the callback has received the bytes read, and
the view it left is behind the previous contents of the input queue. -/
theorem read_event_passive (cb : Callback) (hcb : cb.passive) (w : World) (bs : List Byte)
    (rest : List ReadRes) (hst : w.state = State.OPEN)
    (hr : w.reads = ReadRes.data bs :: rest) (hbs : bs ≠ [])
    (ha : ∀ b ∈ w.allocs, b = true) (hal : 1 ≤ w.allocs.length)
    (hp : ∀ r ∈ w.writes, r.fails_or_progresses = true)
    (hwl : w.output.length ≤ w.writes.length) (hsz : w.output.length < SIZE_MAX) :
    ∃ w', reactor_stream_event cb DescEvent.READ w = some w'
      ∧ w'.state = State.OPEN
      ∧ w'.input = w.input ++ (cb (Event.READ bs) (read_dispatched w bs rest)).2
      ∧ w'.events = w.events ++ [Event.READ bs]
      ∧ w'.reads = rest
      ∧ (∀ b ∈ w'.allocs, b ∈ w.allocs) ∧ w.allocs.length ≤ w'.allocs.length + 1
      ∧ (∀ r ∈ w'.writes, r ∈ w.writes)
      ∧ w.writes.length + w'.output.length ≤ w'.writes.length + 1 + w.output.length
      ∧ w'.output.length ≤ w.output.length := by
  have hg : ¬ (w.state ≠ State.OPEN) := by simp [hst]
  obtain ⟨w1, hread, hw1, ham, hal1⟩ := read_cycle_passive cb hcb
    { w with current := Current.self } bs rest hr hbs ha hal
  have hd : read_dispatched { w with current := Current.self } bs rest
      = read_dispatched w bs rest := rfl
  rw [hd] at hw1
  have hs1 : w1.state = State.OPEN := by rw [hw1]; exact hst
  have hi1 : w1.input = w.input ++ (cb (Event.READ bs) (read_dispatched w bs rest)).2 := by
    rw [hw1]
  have he1 : w1.events = w.events ++ [Event.READ bs] := by rw [hw1]; rfl
  have hr1 : w1.reads = rest := by rw [hw1]; rfl
  have hwr1 : w1.writes = w.writes := by rw [hw1]; rfl
  have ho1 : w1.output = w.output := by rw [hw1]; rfl
  have hc1 : w1.current = Current.self := by rw [hw1]; rfl
  simp only [reactor_stream_event]
  rw [if_neg hg, hread]
  simp only []
  by_cases hb : w1.blocked = false
  · rw [if_pos ⟨by simp [hc1], hb⟩]
    obtain ⟨i, w2, cs, hdw, hile, _, _, _, _, hcons⟩ := desc_write_calls w1 w1.output
      (by rw [hwr1]; exact hp) (by rw [hwr1, ho1]; exact hwl)
    obtain ⟨hfr, _, _, _, _, hmem, _⟩ := desc_write_spec w1 w1.output i w2 hdw
    have hs2 : w2.state = State.OPEN := by rw [hfr]; exact hs1
    have hflush := flush_of_desc_write cb w1 i w2 (Or.inl hs1) hdw
      (by rw [ho1] at hile; omega)
    rw [if_neg (by simp [hs2])] at hflush
    refine ⟨_, hflush, hs2, ?_, ?_, ?_, ?_, ?_, ?_, ?_, ?_⟩
    · show w2.input = _
      rw [hfr]; exact hi1
    · show w2.events = _
      rw [hfr]; exact he1
    · show w2.reads = _
      rw [hfr]; exact hr1
    · intro b hb'
      have : w2.allocs = w1.allocs := by rw [hfr]
      exact ham b (by rw [← this]; exact hb')
    · have : w2.allocs = w1.allocs := by rw [hfr]
      show w.allocs.length ≤ w2.allocs.length + 1
      rw [this]; exact hal1
    · intro r hr'
      have := hmem r hr'
      rw [hwr1] at this
      exact this
    · have ho2 : w2.output = w.output := by rw [hfr]; exact ho1
      show w.writes.length + (w2.output.drop i).length ≤ w2.writes.length + 1 + w.output.length
      rw [ho2, List.length_drop]
      rw [hwr1] at hcons
      rw [ho1] at hile
      omega
    · have ho2 : w2.output = w.output := by rw [hfr]; exact ho1
      show (w2.output.drop i).length ≤ w.output.length
      rw [ho2, List.length_drop]
      omega
  · rw [if_neg (fun h => hb h.2)]
    refine ⟨w1, rfl, hs1, hi1, he1, hr1, ham, hal1, ?_, ?_, ?_⟩
    · intro r hr'; rw [← hwr1]; exact hr'
    · rw [hwr1, ho1]; omega
    · rw [ho1]

/-! ## Lemmas: which operations can leave a stream Closed -/

/-- A flush that leaves the stream Closed has changed nothing. -/
theorem flush_closed_unchanged (cb : Callback) (hcb : cb.passive) (w w' : World)
    (h : reactor_stream_flush cb w = some w') (hc : w'.state = State.CLOSED) : w' = w := by
  by_cases hg : w.state ≠ State.OPEN ∧ w.state ≠ State.LINGER
  · unfold reactor_stream_flush at h
    rw [if_pos hg] at h
    simp only [Option.some.injEq] at h
    exact h.symm
  · exfalso
    unfold reactor_stream_flush at h
    rw [if_neg hg] at h
    simp only [buffer_data] at h
    cases hd : reactor_stream_desc_write w w.output with
    | none => simp [hd] at h
    | some r =>
      obtain ⟨i, w1⟩ := r
      obtain ⟨hfr, _⟩ := desc_write_spec w w.output i w1 hd
      have hs1 : w1.state = w.state := by rw [hfr]
      have hne : w1.state ≠ State.CLOSED := by
        rw [hs1]
        intro hcl
        exact hg (by simp [hcl])
      simp only [hd] at h
      by_cases hbr : to_ssize i = -1 ∧ w1.errno ≠ EAGAIN
      · rw [if_pos hbr, error_spec cb hcb] at h
        simp only [Option.some.injEq] at h
        rw [← h] at hc
        simp at hc
      · rw [if_neg hbr] at h
        simp only [buffer_erase, buffer_size, List.take_zero, List.nil_append, Nat.zero_add] at h
        split at h
        · simp only [Option.some.injEq] at h
          rw [← h] at hc
          simp only [reactor_stream_close, reactor_desc_close] at hc
          split at hc <;> exact hne hc
        · simp only [Option.some.injEq] at h
          rw [← h] at hc
          exact hne hc

/-- An append to the output queue of a stream that is not Closed does not leave it Closed. -/
theorem write_not_closed (cb : Callback) (hcb : cb.passive) (w w' : World) (base : List Byte)
    (h : reactor_stream_write cb w base = some w') (hst : w.state ≠ State.CLOSED) :
    w'.state ≠ State.CLOSED := by
  unfold reactor_stream_write at h
  cases ha : w.allocs with
  | nil => simp [buffer_insert, ha] at h
  | cons a arest =>
    cases a
    · simp only [buffer_insert, ha, error_spec cb hcb] at h
      simp at h
      rw [← h]
      simp
    · simp only [buffer_insert, ha] at h
      simp at h
      rw [← h]
      exact hst

/-- A direct write that leaves the stream Closed has changed nothing. -/
theorem write_direct_closed_unchanged (cb : Callback) (hcb : cb.passive) (w w' : World)
    (base : List Byte) (h : reactor_stream_write_direct cb w base = some w')
    (hc : w'.state = State.CLOSED) : w' = w := by
  by_cases hg : w.state ≠ State.OPEN ∧ w.state ≠ State.LINGER
  · unfold reactor_stream_write_direct at h
    rw [if_pos hg] at h
    simp only [Option.some.injEq] at h
    exact h.symm
  · exfalso
    have hne : w.state ≠ State.CLOSED := by
      intro hcl
      exact hg (by simp [hcl])
    unfold reactor_stream_write_direct at h
    rw [if_neg hg] at h
    by_cases ho : buffer_size w.output ≠ 0
    · rw [if_pos ho] at h
      exact write_not_closed cb hcb w w' base h hne hc
    · rw [if_neg ho] at h
      cases hd : reactor_stream_desc_write w base with
      | none => simp [hd] at h
      | some r =>
        obtain ⟨i, w1⟩ := r
        obtain ⟨hfr, _⟩ := desc_write_spec w base i w1 hd
        have hs1 : w1.state = w.state := by rw [hfr]
        simp only [hd] at h
        split at h
        · split at h
          · rw [error_spec cb hcb] at h
            simp only [Option.some.injEq] at h
            rw [← h] at hc
            simp at hc
          · exact write_not_closed cb hcb w1 w' _ h (by rw [hs1]; exact hne) hc
        · simp only [Option.some.injEq] at h
          rw [← h, hs1] at hc
          exact hne hc

/-- A read cycle on an Open stream does not leave it Closed. -/
theorem read_not_closed (cb : Callback) (hcb : cb.passive) (w w' : World)
    (h : reactor_stream_read cb w = some w') (hst : w.state = State.OPEN) :
    w'.state ≠ State.CLOSED := by
  cases hr : w.reads with
  | nil => simp [reactor_stream_read, reactor_desc_read, hr] at h
  | cons r rest =>
    cases r with
    | failed e =>
      simp only [reactor_stream_read, reactor_desc_read, hr, error_spec cb hcb] at h
      split at h
      · simp only [Option.some.injEq] at h
        rw [← h]; simp
      · simp at h
        rw [← h]; simp [hst]
    | data bs =>
      by_cases hbs : bs = []
      · subst hbs
        simp only [reactor_stream_read, reactor_desc_read, hr] at h
        simp at h
        rw [← h]
        simp only [reactor_stream_shutdown, reactor_stream_close, reactor_desc_close,
          reactor_desc_read_notify]
        split
        · simp [hst]
        · split
          · simp
          · split <;> simp [hst]
      · rw [read_cycle_data cb w bs rest hr hbs, hcb] at h
        split at h
        · cases ha : w.allocs with
          | nil => simp [buffer_insert, read_dispatched, ha] at h
          | cons a arest =>
            cases a <;>
              (simp only [buffer_insert, read_dispatched, ha, Option.some.injEq] at h
               rw [← h]
               simp [hst])
        · simp only [Option.some.injEq] at h
          rw [← h]
          simp [read_dispatched, hst]

/-- One action keeps a Closed stream's output queue empty, provided `write`
is not called on a Closed stream. -/
theorem act_keeps_closed_empty (cb : Callback) (hcb : cb.passive) (a : Action) (w w' : World)
    (hI : w.state = State.CLOSED → w.output = [])
    (hg : ∀ base, a = Action.write base → w.state ≠ State.CLOSED)
    (h : act cb a w = some w') :
    w'.state = State.CLOSED → w'.output = [] := by
  intro hc
  cases a with
  | do_open fd =>
    simp only [act, Option.some.injEq] at h
    rw [← h] at hc
    exfalso
    simp only [reactor_stream_open, error_spec cb hcb, reactor_desc_open] at hc
    split at hc <;> simp at hc
  | write base =>
    exfalso
    exact write_not_closed cb hcb w w' base h (hg base rfl) hc
  | write_direct base =>
    have := write_direct_closed_unchanged cb hcb w w' base h hc
    rw [this] at hc ⊢
    exact hI hc
  | shutdown =>
    simp only [act, Option.some.injEq] at h
    rw [← h] at hc ⊢
    simp only [reactor_stream_shutdown, reactor_stream_close, reactor_desc_close,
      reactor_desc_read_notify] at hc ⊢
    split at hc
    · rename_i h1
      rw [if_pos h1]
      exact hI hc
    · split at hc
      · simp at hc
      · split at hc
        · rename_i h1 _ _
          exfalso
          simp only [ne_eq, not_and, not_not] at h1
          by_cases ho : w.state = State.OPEN
          · rw [ho] at hc; simp at hc
          · rw [h1 ho] at hc; simp at hc
        · rename_i h1 _ _
          exfalso
          simp only [ne_eq, not_and, not_not] at h1
          have hc' : w.state = State.CLOSED := hc
          by_cases ho : w.state = State.OPEN
          · rw [ho] at hc'; simp at hc'
          · rw [h1 ho] at hc'; simp at hc'
  | close =>
    simp only [act, Option.some.injEq] at h
    rw [← h] at hc ⊢
    simp only [reactor_stream_close, reactor_desc_close] at hc ⊢
    split at hc
    · rename_i h1
      rw [if_pos h1]
      exact hI hc
    · rename_i h1
      rw [if_neg h1]
      exact hI hc
  | event type =>
    simp only [act] at h
    cases type with
    | ERROR =>
      simp only [reactor_stream_event, error_spec cb hcb, Option.some.injEq] at h
      rw [← h] at hc
      simp at hc
    | READ =>
      simp only [reactor_stream_event] at h
      by_cases hst : w.state ≠ State.OPEN
      · rw [if_pos hst] at h
        simp only [Option.some.injEq] at h
        rw [← h] at hc ⊢
        exact hI hc
      · rw [if_neg hst] at h
        exfalso
        cases hrd : reactor_stream_read cb { w with current := Current.self } with
        | none => simp [hrd] at h
        | some w1 =>
          have hn1 := read_not_closed cb hcb { w with current := Current.self } w1 hrd
            (by simpa using hst)
          simp only [hrd] at h
          split at h
          · have := flush_closed_unchanged cb hcb w1 w' h hc
            rw [this] at hc
            exact hn1 hc
          · simp only [Option.some.injEq] at h
            rw [← h] at hc
            exact hn1 hc
    | WRITE =>
      simp only [reactor_stream_event] at h
      cases hf : reactor_stream_flush cb { w with blocked := false, current := Current.self } with
      | none => simp [hf] at h
      | some w1 =>
        simp only [hf, reactor_user_dispatch, hcb _ _] at h
        have hw' : w'.state = w1.state ∧ w'.output = w1.output := by
          split at h <;> (simp only [Option.some.injEq] at h; rw [← h]; simp)
        rw [hw'.1] at hc
        rw [hw'.2]
        have := flush_closed_unchanged cb hcb _ w1 hf hc
        rw [this] at hc ⊢
        exact hI hc
    | SHUTDOWN =>
      simp only [reactor_stream_event, reactor_user_dispatch, hcb _ _, Option.some.injEq] at h
      rw [← h] at hc ⊢
      exact hI hc
    | CLOSE =>
      simp only [reactor_stream_event, reactor_stream_close_final, reactor_user_dispatch,
        hcb _ _, Option.some.injEq, buffer_clear] at h
      rw [← h]

/-- A run keeps a Closed stream's output queue empty, provided `write` is
never called while the stream is Closed. -/
theorem exec_keeps_closed_empty (cb : Callback) (hcb : cb.passive) :
    ∀ (acts : List Action) (w w' : World), (w.state = State.CLOSED → w.output = []) →
      writes_not_while_closed cb acts w = true → exec cb acts w = some w' →
      w'.state = State.CLOSED → w'.output = [] := by
  intro acts
  induction acts with
  | nil =>
    intro w w' hI _ h
    simp only [exec, Option.some.injEq] at h
    rw [← h]
    exact hI
  | cons a rest ih =>
    intro w w' hI hg h
    simp only [exec] at h
    simp only [writes_not_while_closed, Bool.and_eq_true] at hg
    cases ha : act cb a w with
    | none => simp [ha] at h
    | some w1 =>
      simp only [ha] at h hg
      refine ih w1 w' (act_keeps_closed_empty cb hcb a w w1 hI ?_ ha) hg.2 h
      intro base hb
      subst hb
      simpa using hg.1

/-! ## Claims: close, the read path, invariants, the write loop -/

/-- C11.  `close()`.  The descriptor close is requested exactly when the state
is Open, Linger or Invalid (on a Closed stream nothing happens at all); in
every case the state, the flag `blocked`, the input queue and the output queue
are unchanged and no event is dispatched. -/
theorem close_only_requests (w : World) :
    ((reactor_stream_close w).close_requests = w.close_requests + 1
      ↔ (w.state = State.OPEN ∨ w.state = State.LINGER ∨ w.state = State.INVALID))
    ∧ ((w.state = State.OPEN ∨ w.state = State.LINGER ∨ w.state = State.INVALID) →
        (reactor_stream_close w).calls = w.calls ++ [DescCall.close])
    ∧ (w.state = State.CLOSED → reactor_stream_close w = w)
    ∧ (reactor_stream_close w).state = w.state
    ∧ (reactor_stream_close w).blocked = w.blocked
    ∧ (reactor_stream_close w).input = w.input
    ∧ (reactor_stream_close w).output = w.output
    ∧ (reactor_stream_close w).events = w.events := by
  cases hst : w.state <;> simp [reactor_stream_close, reactor_desc_close, hst]

/-- C11, witness: a lingering stream with data queued, and a Closed stream. -/
theorem close_only_requests_witness :
    (reactor_stream_close { idle with state := State.LINGER, output := [1, 2] }).calls
        = [] ++ [DescCall.close]
    ∧ reactor_stream_close idle = idle :=
  ⟨(close_only_requests { idle with state := State.LINGER, output := [1, 2] }).2.1
      (Or.inr (Or.inl rfl)),
   (close_only_requests idle).2.2.1 rfl⟩

/-- C12, counterexample.  A READ event on an Open stream whose input queue
holds `[7]`; the descriptor read returns the three bytes `[1, 2, 3]`, the
callback is given exactly that view and reports the two bytes `[2, 3]`
unconsumed, the stream is not finalized (the marker is still set), and the
allocation for the append fails.  The input queue is not `[7, 2, 3]`: it is
still `[7]`. -/
theorem leftover_append_needs_allocation :
    (consuming 1 (Event.READ [1, 2, 3])
        (read_dispatched
          { idle with state := State.OPEN, blocked := true, input := [7],
                      reads := [ReadRes.data [1, 2, 3]], allocs := [false] }
          [1, 2, 3] [])).2 = [2, 3]
    ∧ (reactor_stream_event (consuming 1) DescEvent.READ
        { idle with state := State.OPEN, blocked := true, input := [7],
                    reads := [ReadRes.data [1, 2, 3]], allocs := [false] }).map
        (fun w => (w.input, w.events, w.current))
      = some ([7], [Event.READ [1, 2, 3]], Current.self)
    ∧ ¬ (∃ w', reactor_stream_event (consuming 1) DescEvent.READ
          { idle with state := State.OPEN, blocked := true, input := [7],
                      reads := [ReadRes.data [1, 2, 3]], allocs := [false] } = some w'
        ∧ w'.input = [7] ++ [2, 3]) := by
  have h0 : (reactor_stream_event (consuming 1) DescEvent.READ
        { idle with state := State.OPEN, blocked := true, input := [7],
                    reads := [ReadRes.data [1, 2, 3]], allocs := [false] }).map
        (fun w => (w.input, w.events, w.current))
      = some ([7], [Event.READ [1, 2, 3]], Current.self) := by decide
  refine ⟨rfl, h0, ?_⟩
  rintro ⟨w', h, hin⟩
  rw [h] at h0
  simp [hin] at h0

/-- C12, amended.  A read cycle whose descriptor read returns the bytes `bs`,
at least one: the Read callback is given the view of exactly those bytes.
(1) For every callback: if, when it returns, the stream has not been finalized
(the marker is still set), it reports a non-empty remainder, and the
allocation for the append succeeds, the read cycle leaves the input queue as
the callback left it followed by exactly that remainder; if it reports an
empty remainder, the read cycle leaves the world as the callback left it.
(2) For a callback that leaves the stream alone, with allocations that succeed
and a descriptor that answers the writes of the flush that follows: the READ
event on an Open stream returns, with the state Open, the Read event with the
view `bs` dispatched once, and the input queue equal to its previous contents
followed by exactly the remainder reported (unchanged if that is empty). -/
theorem leftover_appended (cb : Callback) (w : World) (bs : List Byte) (rest : List ReadRes)
    (hst : w.state = State.OPEN) (hr : w.reads = ReadRes.data bs :: rest) (hbs : bs ≠ []) :
    (∀ arest, (cb (Event.READ bs) (read_dispatched w bs rest)).1.current ≠ Current.null →
      (cb (Event.READ bs) (read_dispatched w bs rest)).2 ≠ [] →
      (cb (Event.READ bs) (read_dispatched w bs rest)).1.allocs = true :: arest →
      reactor_stream_read cb { w with current := Current.self }
        = some { (cb (Event.READ bs) (read_dispatched w bs rest)).1 with
                 allocs := arest,
                 input := (cb (Event.READ bs) (read_dispatched w bs rest)).1.input
                   ++ (cb (Event.READ bs) (read_dispatched w bs rest)).2 })
    ∧ ((cb (Event.READ bs) (read_dispatched w bs rest)).2 = [] →
      reactor_stream_read cb { w with current := Current.self }
        = some (cb (Event.READ bs) (read_dispatched w bs rest)).1)
    ∧ (cb.passive → (∀ b ∈ w.allocs, b = true) → 1 ≤ w.allocs.length →
      (∀ r ∈ w.writes, r.fails_or_progresses = true) → w.output.length ≤ w.writes.length →
      w.output.length < SIZE_MAX →
      ∃ w', reactor_stream_event cb DescEvent.READ w = some w'
        ∧ w'.state = State.OPEN
        ∧ w'.events = w.events ++ [Event.READ bs]
        ∧ w'.input = w.input ++ (cb (Event.READ bs) (read_dispatched w bs rest)).2) := by
  have hd : read_dispatched { w with current := Current.self } bs rest
      = read_dispatched w bs rest := rfl
  have hcyc := read_cycle_data cb { w with current := Current.self } bs rest hr hbs
  rw [hd] at hcyc
  refine ⟨?_, ?_, ?_⟩
  · intro arest hcur hrem hal
    have hc : (cb (Event.READ bs) (read_dispatched w bs rest)).1.current ≠ Current.null
        ∧ (cb (Event.READ bs) (read_dispatched w bs rest)).2.length ≠ 0 :=
      ⟨hcur, by simpa using hrem⟩
    rw [hcyc, if_pos hc]
    simp [buffer_insert, hal, buffer_size]
  · intro hrem
    have hc : ¬ ((cb (Event.READ bs) (read_dispatched w bs rest)).1.current ≠ Current.null
        ∧ (cb (Event.READ bs) (read_dispatched w bs rest)).2.length ≠ 0) := by
      simp [hrem]
    rw [hcyc, if_neg hc]
  · intro hcb ha hal hp hwl hsz
    obtain ⟨w', h1, h2, h3, h4, _⟩ := read_event_passive cb hcb w bs rest hst hr hbs ha hal hp
      hwl hsz
    exact ⟨w', h1, h2, h4, h3⟩

/-- C12, witness: the input queue holds `[7]`, the descriptor read returns
`[1, 2, 3]`, the callback consumes one byte, and a queued byte is flushed
afterwards; the input queue ends as `[7, 2, 3]`. -/
theorem leftover_appended_witness :
    ∃ w', reactor_stream_event (consuming 1) DescEvent.READ
        { idle with state := State.OPEN, input := [7], output := [9],
                    reads := [ReadRes.data [1, 2, 3]], allocs := [true],
                    writes := [WriteRes.accept 1] } = some w'
      ∧ w'.state = State.OPEN
      ∧ w'.events = [] ++ [Event.READ [1, 2, 3]]
      ∧ w'.input = [7] ++ [2, 3] :=
  (leftover_appended (consuming 1)
      { idle with state := State.OPEN, input := [7], output := [9],
                  reads := [ReadRes.data [1, 2, 3]], allocs := [true],
                  writes := [WriteRes.accept 1] }
      [1, 2, 3] [] rfl rfl (by decide)).2.2
    (fun ev w => by cases ev <;> rfl) (by decide) (by decide) (by decide) (by decide) (by decide)

/-- C13, counterexample.  Two consecutive READ events on an Open stream.  The
descriptor first returns `[1, 2, 3]`, of which the callback consumes one byte
and reports the remainder `[2, 3]`; it then returns `[4, 5]`.  The view
delivered by the second Read event is `[4, 5]`: it does not begin with
`[2, 3]`.  The remainder is in the input queue. -/
theorem next_view_lacks_leftover :
    (exec (consuming 1) [Action.event DescEvent.READ]
        { idle with state := State.OPEN, blocked := true,
                    reads := [ReadRes.data [1, 2, 3], ReadRes.data [4, 5]],
                    allocs := [true, true] }).map (fun w => (w.events, w.input))
      = some ([Event.READ [1, 2, 3]], [2, 3])
    ∧ (exec (consuming 1) [Action.event DescEvent.READ, Action.event DescEvent.READ]
        { idle with state := State.OPEN, blocked := true,
                    reads := [ReadRes.data [1, 2, 3], ReadRes.data [4, 5]],
                    allocs := [true, true] }).map (fun w => (w.events, w.input))
      = some ([Event.READ [1, 2, 3], Event.READ [4, 5]], [2, 3, 5])
    ∧ ¬ ([2, 3] <+: [4, 5]) := by
  refine ⟨by decide, by decide, by decide⟩

/-- C13, amended.  Two consecutive READ events on an Open stream, with a
callback that leaves the stream alone, allocations that succeed and a
descriptor that answers the writes of the flushes.  The descriptor reads
return `bs1` and then `bs2`; the first Read callback reports the remainder
`r1` (empty or not), the second reports `r2`.  Both events return; the view
delivered by the second Read event is exactly the newly read bytes `bs2`, and
the remainder `r1` is kept, byte for byte, in the input queue: behind the
previous contents after the first event, and followed by `r2` after the
second. -/
theorem leftover_kept_in_input_queue (cb : Callback) (hcb : cb.passive) (w : World)
    (bs1 bs2 r1 r2 : List Byte) (rest : List ReadRes)
    (hst : w.state = State.OPEN)
    (hr : w.reads = ReadRes.data bs1 :: ReadRes.data bs2 :: rest)
    (hbs1 : bs1 ≠ []) (hbs2 : bs2 ≠ [])
    (h1 : ∀ v, (cb (Event.READ bs1) v).2 = r1) (h2 : ∀ v, (cb (Event.READ bs2) v).2 = r2)
    (ha : ∀ b ∈ w.allocs, b = true) (hal : 2 ≤ w.allocs.length)
    (hp : ∀ r ∈ w.writes, r.fails_or_progresses = true)
    (hwl : w.output.length + 1 ≤ w.writes.length) (hsz : w.output.length < SIZE_MAX) :
    ∃ w1 w2, reactor_stream_event cb DescEvent.READ w = some w1
      ∧ reactor_stream_event cb DescEvent.READ w1 = some w2
      ∧ w1.events = w.events ++ [Event.READ bs1]
      ∧ w1.input = w.input ++ r1
      ∧ w2.events = w.events ++ [Event.READ bs1, Event.READ bs2]
      ∧ w2.input = w.input ++ r1 ++ r2 := by
  obtain ⟨w1, he1, hs1, hi1, hev1, hrd1, ham1, hal1, hwm1, hcons1, hol1⟩ :=
    read_event_passive cb hcb w bs1 (ReadRes.data bs2 :: rest) hst hr hbs1 ha (by omega) hp
      (by omega) hsz
  obtain ⟨w2, he2, _, hi2, hev2, _⟩ :=
    read_event_passive cb hcb w1 bs2 rest hs1 hrd1 hbs2 (fun b hb => ha b (ham1 b hb))
      (by omega) (fun r hr' => hp r (hwm1 r hr')) (by omega) (by omega)
  rw [h1] at hi1
  rw [h2] at hi2
  refine ⟨w1, w2, he1, he2, hev1, hi1, ?_, ?_⟩
  · rw [hev2, hev1]; simp
  · rw [hi2, hi1]

/-- C13, witness: the descriptor returns `[1, 2, 3]` and then `[4, 5]`; the
callback leaves `[2, 3]` the first time and `[5]` the second. -/
theorem leftover_kept_in_input_queue_witness :
    ∃ w1 w2, reactor_stream_event (fun ev w =>
          (w, if ev = Event.READ [1, 2, 3] then [2, 3]
              else if ev = Event.READ [4, 5] then [5] else [])) DescEvent.READ
        { idle with state := State.OPEN, output := [9],
                    reads := [ReadRes.data [1, 2, 3], ReadRes.data [4, 5]],
                    allocs := [true, true],
                    writes := [WriteRes.failed EAGAIN, WriteRes.accept 1] } = some w1
      ∧ reactor_stream_event (fun ev w =>
          (w, if ev = Event.READ [1, 2, 3] then [2, 3]
              else if ev = Event.READ [4, 5] then [5] else [])) DescEvent.READ w1 = some w2
      ∧ w1.events = [] ++ [Event.READ [1, 2, 3]]
      ∧ w1.input = [] ++ [2, 3]
      ∧ w2.events = [] ++ [Event.READ [1, 2, 3], Event.READ [4, 5]]
      ∧ w2.input = [] ++ [2, 3] ++ [5] :=
  leftover_kept_in_input_queue
    (fun ev w => (w, if ev = Event.READ [1, 2, 3] then [2, 3]
                     else if ev = Event.READ [4, 5] then [5] else []))
    (fun _ _ => rfl)
    { idle with state := State.OPEN, output := [9],
                reads := [ReadRes.data [1, 2, 3], ReadRes.data [4, 5]],
                allocs := [true, true],
                writes := [WriteRes.failed EAGAIN, WriteRes.accept 1] }
    [1, 2, 3] [4, 5] [2, 3] [5] [] rfl rfl (by decide) (by decide)
    (fun _ => rfl) (fun _ => rfl) (by decide) (by decide) (by decide) (by decide) (by decide)

/-- C15, counterexample.  From a freshly initialised stream, `write` of one
byte leaves the output queue non-empty in the state Closed; and `open`,
`write` of one byte and a descriptor ERROR event leave it non-empty in the
state Invalid. -/
theorem output_queued_while_closed_or_invalid :
    (exec ignore [Action.write [1]]
        (reactor_stream_init { idle with allocs := [true] })).map
        (fun w => (w.state, w.output))
      = some (State.CLOSED, [1])
    ∧ (exec ignore [Action.do_open 3, Action.write [1], Action.event DescEvent.ERROR]
        (reactor_stream_init { idle with allocs := [true] })).map
        (fun w => (w.state, w.output))
      = some (State.INVALID, [1]) := by
  constructor <;> decide

/-- C15, amended.  In every state reached from a freshly initialised stream by
a sequence of public operations (`open`, `write`, `write_direct`, `shutdown`,
`close`) and descriptor events (ERROR, READ, WRITE, SHUTDOWN, CLOSE) in which
`write` is not called while the stream is Closed, with a callback that leaves
the stream alone, the output queue is non-empty only if the state is Open,
Linger or Invalid. -/
theorem output_queued_only_while_live_or_invalid (cb : Callback) (hcb : cb.passive)
    (w0 : World) (acts : List Action) (w : World)
    (hg : writes_not_while_closed cb acts (reactor_stream_init w0) = true)
    (h : exec cb acts (reactor_stream_init w0) = some w) (ho : w.output ≠ []) :
    w.state = State.OPEN ∨ w.state = State.LINGER ∨ w.state = State.INVALID := by
  have hI := exec_keeps_closed_empty cb hcb acts (reactor_stream_init w0) w
    (fun _ => rfl) hg h
  cases hs : w.state with
  | CLOSED => exact absurd (hI hs) ho
  | OPEN => simp
  | LINGER => simp
  | INVALID => simp

/-- C15, witness: `open`, a descriptor ERROR event, then `write` of one byte
on the Invalid stream: the byte is queued and the state is Invalid. -/
theorem output_queued_only_while_live_or_invalid_witness :
    ({ idle with state := State.INVALID, output := [1], fd := some 3,
                 calls := [DescCall.opened 3], events := [Event.ERROR] } : World).state
        = State.OPEN
    ∨ ({ idle with state := State.INVALID, output := [1], fd := some 3,
                   calls := [DescCall.opened 3], events := [Event.ERROR] } : World).state
        = State.LINGER
    ∨ ({ idle with state := State.INVALID, output := [1], fd := some 3,
                   calls := [DescCall.opened 3], events := [Event.ERROR] } : World).state
        = State.INVALID :=
  output_queued_only_while_live_or_invalid ignore (fun _ _ => rfl)
    { idle with allocs := [true] }
    [Action.do_open 3, Action.event DescEvent.ERROR, Action.write [1]]
    { idle with state := State.INVALID, output := [1], fd := some 3,
                calls := [DescCall.opened 3], events := [Event.ERROR] }
    (by decide) (by decide) (by decide)

/-- C16, the code at a failing input.  A stream is initialised and opened and
three bytes are queued; at the WRITE readiness event the descriptor write
fails with a hard error (`errno = 5`, not `EAGAIN`).  The flag `blocked` is
set by that hard error, with the stream still Open; it is still set after a
descriptor ERROR event has made the stream Invalid, and still set after
finalization has made it Closed. -/
theorem blocked_set_by_hard_error_and_kept :
    (exec ignore [Action.do_open 3, Action.write [1, 2, 3], Action.event DescEvent.WRITE]
        (reactor_stream_init { idle with allocs := [true], writes := [WriteRes.failed 5] })).map
        (fun w => (w.state, w.blocked, w.errno))
      = some (State.OPEN, true, 5)
    ∧ (exec ignore [Action.do_open 3, Action.write [1, 2, 3], Action.event DescEvent.WRITE,
          Action.event DescEvent.ERROR]
        (reactor_stream_init { idle with allocs := [true], writes := [WriteRes.failed 5] })).map
        (fun w => (w.state, w.blocked))
      = some (State.INVALID, true)
    ∧ (exec ignore [Action.do_open 3, Action.write [1, 2, 3], Action.event DescEvent.WRITE,
          Action.event DescEvent.ERROR, Action.event DescEvent.CLOSE]
        (reactor_stream_init { idle with allocs := [true], writes := [WriteRes.failed 5] })).map
        (fun w => (w.state, w.blocked))
      = some (State.CLOSED, true) := by
  refine ⟨by decide, by decide, by decide⟩

/-- C18.  READ gating.  On a stream that is not Open a descriptor READ event
changes nothing at all: no descriptor call, no callback dispatch, the state,
the flag `blocked` and both queues as they were.  On a stream whose descriptor
read fails with would-block, the read cycle takes the answer of the
descriptor (the call is logged, `errno` is `EAGAIN`) and changes nothing else:
the state, the flag `blocked`, both queues and the notifications are as they
were, and no event is dispatched. -/
theorem read_gated (cb : Callback) (w : World) :
    (w.state ≠ State.OPEN → reactor_stream_event cb DescEvent.READ w = some w)
    ∧ (∀ rest, w.reads = ReadRes.failed EAGAIN :: rest →
        reactor_stream_read cb w
          = some { w with reads := rest, errno := EAGAIN,
                          calls := w.calls ++ [DescCall.read (-1)] }) := by
  constructor
  · intro hst
    simp [reactor_stream_event, hst]
  · intro rest hr
    simp [reactor_stream_read, reactor_desc_read, hr]

/-- C18, witness: a lingering stream with a read pending, and an Open stream
whose read would block. -/
theorem read_gated_witness :
    reactor_stream_event ignore DescEvent.READ
        { idle with state := State.LINGER, output := [1], reads := [ReadRes.data [5]] }
      = some { idle with state := State.LINGER, output := [1], reads := [ReadRes.data [5]] }
    ∧ reactor_stream_read ignore
        { idle with state := State.OPEN, input := [1], output := [2],
                    reads := [ReadRes.failed EAGAIN] }
      = some { idle with state := State.OPEN, input := [1], output := [2], reads := [],
                         errno := EAGAIN, calls := [] ++ [DescCall.read (-1)] } :=
  ⟨(read_gated ignore
      { idle with state := State.LINGER, output := [1], reads := [ReadRes.data [5]] }).1
      (by decide),
   (read_gated ignore
      { idle with state := State.OPEN, input := [1], output := [2],
                  reads := [ReadRes.failed EAGAIN] }).2 [] rfl⟩

/-- C19.  The write loop.  A buffer `data` and a descriptor whose every
scripted write fails or accepts at least one byte (and, as always, at most
what is offered), with at least as many scripted answers as the buffer has
bytes.  Then `reactor_stream_desc_write` returns a count `i` and:
the calls it makes are descriptor writes, at least one if the buffer is not
empty, followed by exactly one write-notification request; the writes offer
the bytes in order, each everything from the first byte not yet accepted;
they take the answers of the script one by one, in order, and return them;
the bytes accepted are the first `i` of the buffer, and `i` is at most the
size; the loop returns the full size only after writes that all accepted
between one byte and what they offered, and returns `i` below the size only
because the last write, which offered everything from byte `i`, failed (and
then `blocked` is set); the notification is enabled exactly when `i` is not
the size and cancelled when it is. -/
theorem write_loop_returns_in_order (w : World) (data : List Byte)
    (hp : ∀ r ∈ w.writes, r.fails_or_progresses = true) (hlen : data.length ≤ w.writes.length) :
    ∃ i w' cs, reactor_stream_desc_write w data = some (i, w')
      ∧ i ≤ data.length
      ∧ w'.calls = w.calls ++ cs ++ [DescCall.write_notify (i != data.length)]
      ∧ offered_in_order data 0 cs = true
      ∧ accepted_bytes cs = data.take i
      ∧ (w'.write_notify = true ↔ i ≠ data.length)
      ∧ (w'.write_notify = false ↔ i = data.length)
      ∧ (data ≠ [] → cs ≠ [])
      ∧ answers_script w.writes cs = true
      ∧ w'.writes = w.writes.drop cs.length
      ∧ ((i = data.length ∧ w'.blocked = w.blocked
            ∧ ∀ c ∈ cs, ∃ o m, c = DescCall.write o m ∧ 1 ≤ m ∧ m ≤ (o.length : Int))
          ∨ (i < data.length ∧ w'.blocked = true
            ∧ ∃ cs0, cs = cs0 ++ [DescCall.write (data.drop i) (-1)]
              ∧ ∀ c ∈ cs0, ∃ o m, c = DescCall.write o m ∧ 1 ≤ m ∧ m ≤ (o.length : Int))) := by
  obtain ⟨n, w1, cs, h1, h2, h3, h4, _⟩ := desc_write_loop_calls data (w.writes.length + 1) 0 w
    (Nat.lt_succ_self _) hp (by omega)
  obtain ⟨_, _, hle, hacc, _⟩ := desc_write_loop_spec data _ _ _ _ _ h1 (Nat.zero_le _)
  obtain ⟨cs', t1, t2, t3, t4⟩ := desc_write_loop_trace data _ _ _ _ _ h1 (Nat.zero_le _) hp
  have hcs : cs' = cs := by
    rw [h2] at t1
    exact (List.append_cancel_left t1).symm
  subst hcs
  refine ⟨n, reactor_desc_write_notify w1 (n != data.length), cs', ?_, hle, ?_, h3, ?_, ?_, ?_,
    ?_, t3, ?_, ?_⟩
  · simp [reactor_stream_desc_write, h1]
  · simp [reactor_desc_write_notify, h2]
  · rw [h2, accepted_bytes_append] at hacc
    simpa using hacc
  · simp [reactor_desc_write_notify]
  · simp [reactor_desc_write_notify]
  · intro hd
    apply h4
    cases data with
    | nil => exact absurd rfl hd
    | cons a l => simp
  · simpa [reactor_desc_write_notify] using t2
  · simpa [reactor_desc_write_notify] using t4

/-- C19, witness: five bytes, a descriptor that accepts two, then one, then fails. -/
theorem write_loop_returns_in_order_witness :
    ∃ i w' cs, reactor_stream_desc_write
        { idle with writes := [WriteRes.accept 2, WriteRes.accept 1, WriteRes.failed 5,
                               WriteRes.accept 9, WriteRes.accept 9] } [10, 11, 12, 13, 14]
        = some (i, w')
      ∧ i ≤ 5
      ∧ w'.calls = [] ++ cs ++ [DescCall.write_notify (i != 5)]
      ∧ offered_in_order [10, 11, 12, 13, 14] 0 cs = true
      ∧ accepted_bytes cs = [10, 11, 12, 13, 14].take i
      ∧ (w'.write_notify = true ↔ i ≠ 5)
      ∧ (w'.write_notify = false ↔ i = 5)
      ∧ (([10, 11, 12, 13, 14] : List Byte) ≠ [] → cs ≠ [])
      ∧ answers_script [WriteRes.accept 2, WriteRes.accept 1, WriteRes.failed 5,
                        WriteRes.accept 9, WriteRes.accept 9] cs = true
      ∧ w'.writes = [WriteRes.accept 2, WriteRes.accept 1, WriteRes.failed 5,
                     WriteRes.accept 9, WriteRes.accept 9].drop cs.length
      ∧ ((i = 5 ∧ w'.blocked = false
            ∧ ∀ c ∈ cs, ∃ o m, c = DescCall.write o m ∧ 1 ≤ m ∧ m ≤ (o.length : Int))
          ∨ (i < 5 ∧ w'.blocked = true
            ∧ ∃ cs0, cs = cs0 ++ [DescCall.write ([10, 11, 12, 13, 14].drop i) (-1)]
              ∧ ∀ c ∈ cs0, ∃ o m, c = DescCall.write o m ∧ 1 ≤ m ∧ m ≤ (o.length : Int))) :=
  write_loop_returns_in_order
    { idle with writes := [WriteRes.accept 2, WriteRes.accept 1, WriteRes.failed 5,
                           WriteRes.accept 9, WriteRes.accept 9] } [10, 11, 12, 13, 14]
    (by decide) (by decide)

end ReactorStream
